import Mathlib

/-!
Shallow embedding of the pack reconciler and target resolver of the fleet
datastore (mysql backend, file src/cmd/fleetctl/api.go).

Relational tables are embedded as Lean lists of row structures, kept in
insertion order.  A SELECT without ORDER BY is read as a scan of the tables
in the order they appear in the FROM clause, joins as nested loops in that
order.  SQL DISTINCT is List.dedup at the end.  Machine integer ids are Nat
(they stay far from any overflow in every statement proved here).  Fallible
operations return Except String, the transaction commit/rollback pair of
ApplyPackSpecs is made explicit by applyPackSpecsRun: on error the caller
keeps the pre-transaction state.
-/

namespace Fleet

/-- Row of the packs table (columns read by the embedded statements:
id, name, description, platform, disabled, deleted). -/
structure PackRow where
  id : Nat
  name : String
  description : String
  platform : String
  disabled : Bool
  deleted : Bool
deriving DecidableEq, Repr

/-- Row of the scheduled_queries table, the columns written and read by
applyPackSpec / GetPackSpecs. -/
structure ScheduledQueryRow where
  pack_id : Nat
  query_name : String
  name : String
  description : String
  interval : Nat
  snapshot : Bool
  removed : Bool
  shard : Option Nat
  platform : String
  version : String
deriving DecidableEq, Repr

/-- The polymorphic target kind column of pack_targets
(kolide.TargetLabel / kolide.TargetHost). -/
inductive TargetType where
  | label : TargetType
  | host : TargetType
deriving DecidableEq, Repr

/-- Row of the pack_targets table.  target_id is NOT NULL: the insert in
applyPackSpec fails instead of storing a null (see applyTargetLoop). -/
structure PackTargetRow where
  pack_id : Nat
  type : TargetType
  target_id : Nat
deriving DecidableEq, Repr

/-- Row of the labels table (columns the embedded statements touch). -/
structure LabelRow where
  id : Nat
  name : String
  deleted : Bool
deriving DecidableEq, Repr

/-- Row of the label_query_executions match cache, written only by the
external host-report path. -/
structure LabelQueryExecutionRow where
  host_id : Nat
  label_id : Nat
  matches_ : Bool
deriving DecidableEq, Repr

/-- One entry of the queries list of a pack spec (kolide.PackSpecQuery,
the fields copied by applyPackSpec and read back by GetPackSpecs). -/
structure PackSpecQuery where
  query_name : String
  name : String
  description : String
  interval : Nat
  snapshot : Bool
  removed : Bool
  shard : Option Nat
  platform : String
  version : String
deriving DecidableEq, Repr

/-- The targets of a pack spec: a list of label names. -/
structure PackSpecTargets where
  labels : List String
deriving DecidableEq, Repr

/-- A pack specification (kolide.PackSpec) in the declarative shape of the
spec: name, description, platform, ordered scheduled query entries and
label targets. -/
structure PackSpec where
  name : String
  description : String
  platform : String
  queries : List PackSpecQuery
  targets : PackSpecTargets
deriving DecidableEq, Repr

/-- The relational state the engine reads and writes.  The queries table is
kept as the list of existing query names, the only part of it this engine
consults. -/
structure State where
  packs : List PackRow
  scheduled_queries : List ScheduledQueryRow
  pack_targets : List PackTargetRow
  labels : List LabelRow
  queries : List String
  hosts : List Nat
  lqes : List LabelQueryExecutionRow
deriving DecidableEq, Repr

/-- Auto-increment id for an insert into packs: one more than the largest
existing id. -/
def nextPackId (packs : List PackRow) : Nat :=
  packs.foldr (fun p m => max p.id m) 0 + 1

/-- The fresh row inserted into packs when no name matches. -/
def newPackRow (packs : List PackRow) (spec : PackSpec) : PackRow :=
  { id := nextPackId packs, name := spec.name,
    description := spec.description, platform := spec.platform,
    disabled := false, deleted := false }

/-- The per-row effect of the duplicate-key update: a row whose name
matches gets the new description and platform and a cleared delete flag,
any other row is untouched. -/
def updRow (spec : PackSpec) (p : PackRow) : PackRow :=
  if p.name == spec.name then
    { p with description := spec.description, platform := spec.platform,
             deleted := false }
  else p

/-- The INSERT ... ON DUPLICATE KEY UPDATE statement of applyPackSpec: the
unique key of packs is name; a name match (soft-deleted rows included)
updates description and platform and clears the delete flag, otherwise a
fresh row is inserted. -/
def upsertPacks (packs : List PackRow) (spec : PackSpec) : List PackRow :=
  if packs.any (fun p => p.name == spec.name) then
    packs.map (updRow spec)
  else
    packs ++ [newPackRow packs spec]

/-- SELECT id FROM packs WHERE name = ? (first matching row). -/
def findPackId (packs : List PackRow) (name : String) : Option Nat :=
  (packs.find? (fun p => p.name == name)).map (fun p => p.id)

/-- SELECT id FROM labels WHERE name = ? (the correlated subquery of the
pack_targets insert; first matching row, the deleted flag is not
consulted). -/
def findLabelId (labels : List LabelRow) (name : String) : Option Nat :=
  (labels.find? (fun l => l.name == name)).map (fun l => l.id)

/-- Total version of findLabelId used to spell out rows once the lookup is
known to succeed. -/
def labelIdOf (labels : List LabelRow) (name : String) : Nat :=
  ((labels.find? (fun l => l.name == name)).map (fun l => l.id)).getD 0

/-- The scheduled_queries row inserted for one spec entry. -/
def mkSchedRow (pid : Nat) (q : PackSpecQuery) : ScheduledQueryRow :=
  { pack_id := pid, query_name := q.query_name, name := q.name,
    description := q.description, interval := q.interval,
    snapshot := q.snapshot, removed := q.removed, shard := q.shard,
    platform := q.platform, version := q.version }

/-- The pack_targets row inserted for one label target. -/
def mkTargetRow (pid : Nat) (lid : Nat) : PackTargetRow :=
  { pack_id := pid, type := TargetType.label, target_id := lid }

/-- The insert loop over spec.Queries.  Modelled from the spec: the
scheduled_queries table carries a foreign key on query_name into queries
(schema and isChildForeignKeyError are outside src/), so inserting an entry
whose query_name resolves to no existing query fails with the distinct
unknown-query error built in applyPackSpec. -/
def applySchedLoop (known : List String) (pid : Nat)
    (acc : List ScheduledQueryRow) :
    List PackSpecQuery → Except String (List ScheduledQueryRow)
  | [] => Except.ok acc
  | q :: rest =>
    if known.contains q.query_name then
      applySchedLoop known pid (acc ++ [mkSchedRow pid q]) rest
    else
      Except.error ("cannot schedule unknown query \x27" ++ q.query_name ++ "\x27")

/-- The insert loop over spec.Targets.Labels.  Modelled from the spec: the
target_id column is NOT NULL (schema outside src/), so when the correlated
label lookup yields no row the insert fails; the code wraps that driver
error as "adding label to pack" (the driver text names the column, not the
label, so the message is embedded without it). -/
def applyTargetLoop (labels : List LabelRow) (pid : Nat)
    (acc : List PackTargetRow) :
    List String → Except String (List PackTargetRow)
  | [] => Except.ok acc
  | n :: rest =>
    match findLabelId labels n with
    | some lid => applyTargetLoop labels pid (acc ++ [mkTargetRow pid lid]) rest
    | none => Except.error "adding label to pack"

/-- One reconciliation step for a single pack spec, run inside the batch
transaction: upsert the pack row, re-read its id by name, delete and
re-insert the scheduled_queries rows, delete and re-insert the pack_targets
rows. -/
def applyPackSpec (st : State) (spec : PackSpec) : Except String State :=
  match findPackId (upsertPacks st.packs spec) spec.name with
  | none => Except.error "getting pack ID"
  | some pid =>
    match applySchedLoop st.queries pid
        (st.scheduled_queries.filter (fun r => !(r.pack_id == pid)))
        spec.queries with
    | Except.error e => Except.error e
    | Except.ok sq1 =>
      match applyTargetLoop st.labels pid
          (st.pack_targets.filter (fun r => !(r.pack_id == pid)))
          spec.targets.labels with
      | Except.error e => Except.error e
      | Except.ok pt1 =>
        Except.ok { st with packs := upsertPacks st.packs spec,
                            scheduled_queries := sq1, pack_targets := pt1 }

/-- The whole-batch loop of ApplyPackSpecs: each inner failure is wrapped
with the name of the failing pack and aborts the batch. -/
def ApplyPackSpecs (st : State) : List PackSpec → Except String State
  | [] => Except.ok st
  | spec :: rest =>
    match applyPackSpec st spec with
    | Except.error e =>
      Except.error ("applying pack \x27" ++ spec.name ++ "\x27: " ++ e)
    | Except.ok st1 => ApplyPackSpecs st1 rest

/-- Transaction boundary of ApplyPackSpecs: success commits the folded
state, an error rolls back, leaving the caller with the pre-transaction
state together with the error. -/
def applyPackSpecsRun (st : State) (specs : List PackSpec) :
    State × Option String :=
  match ApplyPackSpecs st specs with
  | Except.ok st1 => (st1, none)
  | Except.error e => (st, some e)

/-- Error-free sequential application of every spec in order (the committed
outcome of a fully successful batch). -/
def applyAllOk (st : State) : List PackSpec → Option State
  | [] => some st
  | spec :: rest =>
    match applyPackSpec st spec with
    | Except.ok st1 => applyAllOk st1 rest
    | Except.error _ => none

/-- Read-back of the target labels of one pack in GetPackSpecs:
SELECT l.name FROM labels l JOIN pack_targets pt
WHERE pack_id = ? AND pt.type = label AND pt.target_id = l.id
(no ORDER BY; scanned labels-first as written in the FROM clause). -/
def getSpecLabels (st : State) (pid : Nat) : List String :=
  st.labels.flatMap (fun l =>
    st.pack_targets.filterMap (fun pt =>
      if pt.pack_id = pid ∧ pt.type = TargetType.label ∧ pt.target_id = l.id
      then some l.name else none))

/-- The spec entry read back from one scheduled_queries row (the column
list of the GetPackSpecs query). -/
def toSpecQuery (r : ScheduledQueryRow) : PackSpecQuery :=
  { query_name := r.query_name, name := r.name,
    description := r.description, interval := r.interval,
    snapshot := r.snapshot, removed := r.removed, shard := r.shard,
    platform := r.platform, version := r.version }

/-- GetPackSpecs: every row of packs (the statement has no deleted filter),
with its scheduled query entries and target label names re-read per pack. -/
def GetPackSpecs (st : State) : List PackSpec :=
  st.packs.map (fun p =>
    { name := p.name, description := p.description, platform := p.platform,
      queries := (st.scheduled_queries.filter
          (fun r => r.pack_id == p.id)).map toSpecQuery,
      targets := { labels := getSpecLabels st p.id } })

/-- PackByName: SELECT * FROM packs WHERE name = ? AND NOT deleted, no row
mapped to the distinguished not-found outcome. -/
def PackByName (st : State) (name : String) : Option PackRow :=
  st.packs.find? (fun p => p.name == name && !p.deleted)

/-- Pack by id: SELECT * FROM packs WHERE id = ? AND NOT deleted. -/
def Pack (st : State) (pid : Nat) : Option PackRow :=
  st.packs.find? (fun p => p.id == pid && !p.deleted)

/-- ListPacks: SELECT * FROM packs WHERE NOT deleted. -/
def ListPacks (st : State) : List PackRow :=
  st.packs.filter (fun p => !p.deleted)

/-- ListPacksForHost: packs cross-joined with pack_targets and
label_query_executions, the ON condition keeping only label-kind targets
whose match row is true, restricted to the given host and to packs not
disabled; DISTINCT at the end. -/
def ListPacksForHost (st : State) (hid : Nat) : List PackRow :=
  (st.packs.flatMap (fun p =>
    st.pack_targets.flatMap (fun pt =>
      st.lqes.filterMap (fun lqe =>
        if (p.id = pt.pack_id ∧ pt.target_id = lqe.label_id ∧
            pt.type = TargetType.label ∧ lqe.matches_ = true) ∧
           lqe.host_id = hid ∧ p.disabled = false
        then some p else none)))).dedup

/-- ListHostsInPack: hosts cross-joined with pack_targets and
label_query_executions; the ON condition is a disjunction of the label
branch (match row true for the targeted label) and the explicit host
branch, the WHERE clause restricts to the pack; DISTINCT at the end. -/
def ListHostsInPack (st : State) (pid : Nat) : List Nat :=
  (st.hosts.flatMap (fun h =>
    st.pack_targets.flatMap (fun pt =>
      st.lqes.filterMap (fun lqe =>
        if ((pt.target_id = lqe.label_id ∧ lqe.host_id = h ∧
             lqe.matches_ = true ∧ pt.type = TargetType.label) ∨
            (pt.target_id = h ∧ pt.type = TargetType.host)) ∧
           pt.pack_id = pid
        then some h else none)))).dedup

/-- ListExplicitHostsInPack: hosts joined with pack_targets on the explicit
host branch only, restricted to the pack; DISTINCT at the end. -/
def ListExplicitHostsInPack (st : State) (pid : Nat) : List Nat :=
  (st.hosts.flatMap (fun h =>
    st.pack_targets.filterMap (fun pt =>
      if pt.target_id = h ∧ pt.type = TargetType.host ∧ pt.pack_id = pid
      then some h else none))).dedup

/-- Scheduled-query rows of one pack, in table order. -/
def sqProj (st : State) (pid : Nat) : List ScheduledQueryRow :=
  st.scheduled_queries.filter (fun r => r.pack_id == pid)

/-- Target rows of one pack, in table order. -/
def ptProj (st : State) (pid : Nat) : List PackTargetRow :=
  st.pack_targets.filter (fun r => r.pack_id == pid)

/-- Substring test used to state what an error message does not mention. -/
def containsStr (hay needle : String) : Bool :=
  hay.toList.tails.any (fun t => needle.toList.isPrefixOf t)

/-- The pack id applyPackSpec works with: the id re-read by name right
after the upsert (total form; the lookup always succeeds after the
upsert). -/
def pidOf (st : State) (spec : PackSpec) : Nat :=
  (findPackId (upsertPacks st.packs spec) spec.name).getD 0

/-- The two reference conditions under which applyPackSpec succeeds: every
scheduled entry names an existing query and every target names an existing
label. -/
def applyConds (st : State) (spec : PackSpec) : Prop :=
  (∀ q ∈ spec.queries, q.query_name ∈ st.queries) ∧
  (∀ n ∈ spec.targets.labels, (findLabelId st.labels n).isSome = true)

/-- The state applyPackSpec commits on success, written out: upserted pack
row, child rows of that pack replaced wholesale, every other table
untouched. -/
def applyStruct (st : State) (spec : PackSpec) : State :=
  { st with
    packs := upsertPacks st.packs spec,
    scheduled_queries :=
      st.scheduled_queries.filter (fun r => !(r.pack_id == pidOf st spec)) ++
        spec.queries.map (mkSchedRow (pidOf st spec)),
    pack_targets :=
      st.pack_targets.filter (fun r => !(r.pack_id == pidOf st spec)) ++
        spec.targets.labels.map
          (fun n => mkTargetRow (pidOf st spec) (labelIdOf st.labels n)) }

/-- Ids of the pack rows. -/
def packIds (packs : List PackRow) : List Nat := packs.map (fun p => p.id)

/-- Names of the pack rows. -/
def packNames (packs : List PackRow) : List String :=
  packs.map (fun p => p.name)

/-- Consistency of the child tables: every child row points at an existing
pack row. -/
def Inv (st : State) : Prop :=
  (∀ r ∈ st.scheduled_queries, r.pack_id ∈ packIds st.packs) ∧
  (∀ r ∈ st.pack_targets, r.pack_id ∈ packIds st.packs)

/-- Ids that a replay of the given spec names will write to in state b: the
by-name id of each listed name. -/
def firstIds (b : State) (names : List String) (i : Nat) : Prop :=
  ∃ n ∈ names, findPackId b.packs n = some i

/-- Row-wise agreement of two packs tables up to the mutable fields of the
rows whose name is still pending in a replay. -/
def agreeP (S : List String) (v b : List PackRow) : Prop :=
  List.Forall₂ (fun pv pb =>
    pv.id = pb.id ∧ pv.name = pb.name ∧ pv.disabled = pb.disabled ∧
    (pb.name ∉ S → pv = pb)) v b

/-- Agreement of a replay state v with the first-run result b, up to the
packs and child projections that the pending suffix of specs will
overwrite. -/
def AgreeExcept (v b : State) (S : List String) : Prop :=
  v.queries = b.queries ∧ v.labels = b.labels ∧ v.hosts = b.hosts ∧
  v.lqes = b.lqes ∧ agreeP S v.packs b.packs ∧
  ∀ i, ¬ firstIds b S i → sqProj v i = sqProj b i ∧ ptProj v i = ptProj b i

/-- Concrete store for the batch-failure scenario: one known query, no
packs. -/
def c1st : State :=
  { packs := [], scheduled_queries := [], pack_targets := [],
    labels := [], queries := ["q1"], hosts := [], lqes := [] }

/-- First spec of the scenario batch: valid. -/
def c1specA : PackSpec :=
  { name := "A", description := "", platform := "",
    queries := [{ query_name := "q1", name := "n1", description := "",
                  interval := 10, snapshot := false, removed := true,
                  shard := none, platform := "", version := "" }],
    targets := { labels := [] } }

/-- Second spec of the scenario batch: references the unknown query zzz. -/
def c1specB : PackSpec :=
  { name := "B", description := "", platform := "",
    queries := [{ query_name := "zzz", name := "n2", description := "",
                  interval := 10, snapshot := false, removed := true,
                  shard := none, platform := "", version := "" }],
    targets := { labels := [] } }

/-- Third spec of the scenario batch: valid. -/
def c1specC : PackSpec :=
  { name := "C", description := "", platform := "",
    queries := [], targets := { labels := [] } }

/-- The pre-existing soft-deleted pack row of the resurrection scenario. -/
def c8oldRow : PackRow :=
  { id := 3, name := "p", description := "olddesc", platform := "oldplat",
    disabled := true, deleted := true }

/-- Store with one soft-deleted pack row named p, for the resurrection
scenario. -/
def c8st : State :=
  { packs := [c8oldRow],
    scheduled_queries := [], pack_targets := [], labels := [],
    queries := [], hosts := [], lqes := [] }

/-- Spec re-creating the pack named p with new mutable fields. -/
def c8spec : PackSpec :=
  { name := "p", description := "new", platform := "plat", queries := [],
    targets := { labels := [] } }

/-- Store whose only pack has one explicit host target and whose match
cache is empty. -/
def c3stA : State :=
  { packs := [{ id := 1, name := "P", description := "", platform := "",
                disabled := false, deleted := false }],
    scheduled_queries := [],
    pack_targets := [{ pack_id := 1, type := TargetType.host, target_id := 5 }],
    labels := [], queries := [], hosts := [5], lqes := [] }

/-- Same store with a nonempty match cache but host 5 missing from the
hosts table. -/
def c3stB : State :=
  { packs := [{ id := 1, name := "P", description := "", platform := "",
                disabled := false, deleted := false }],
    scheduled_queries := [],
    pack_targets := [{ pack_id := 1, type := TargetType.host, target_id := 5 }],
    labels := [], queries := [], hosts := [], lqes := [⟨5, 9, true⟩] }

/-- Store whose only pack explicitly targets host 7 and is enabled; the
match cache is nonempty but holds no matching label row for it. -/
def c7st : State :=
  { packs := [{ id := 1, name := "P", description := "", platform := "",
                disabled := false, deleted := false }],
    scheduled_queries := [],
    pack_targets := [{ pack_id := 1, type := TargetType.host, target_id := 7 }],
    labels := [], queries := [], hosts := [7], lqes := [⟨7, 1, true⟩] }

/-- Store with a single soft-deleted pack row. -/
def c9stD : State :=
  { packs := [{ id := 1, name := "gone", description := "d",
                platform := "pl", disabled := false, deleted := true }],
    scheduled_queries := [], pack_targets := [], labels := [],
    queries := [], hosts := [], lqes := [] }

/-- Store where pack 1 targets the soft-deleted label 5, and host 7 has a
positive match row for that label. -/
def c9stE : State :=
  { packs := [{ id := 1, name := "P", description := "", platform := "",
                disabled := false, deleted := false }],
    scheduled_queries := [],
    pack_targets := [{ pack_id := 1, type := TargetType.label, target_id := 5 }],
    labels := [{ id := 5, name := "L", deleted := true }],
    queries := [], hosts := [7], lqes := [⟨7, 5, true⟩] }

/-- Store for the referential-integrity scenario: known query q1, label
linux, no packs. -/
def c4st : State :=
  { packs := [], scheduled_queries := [], pack_targets := [],
    labels := [{ id := 1, name := "linux", deleted := false }],
    queries := ["q1"], hosts := [], lqes := [] }

/-- Leading valid spec of the referential-integrity batches. -/
def c4pre : PackSpec :=
  { name := "ok1", description := "", platform := "",
    queries := [{ query_name := "q1", name := "a", description := "",
                  interval := 5, snapshot := false, removed := true,
                  shard := none, platform := "", version := "" }],
    targets := { labels := ["linux"] } }

/-- Spec whose scheduled query references the unknown query ghost. -/
def c4bad : PackSpec :=
  { name := "packX", description := "", platform := "",
    queries := [{ query_name := "ghost", name := "b", description := "",
                  interval := 5, snapshot := false, removed := true,
                  shard := none, platform := "", version := "" }],
    targets := { labels := [] } }

/-- Trailing spec of the referential-integrity batches. -/
def c4post : PackSpec :=
  { name := "ok2", description := "", platform := "",
    queries := [], targets := { labels := [] } }

/-- Spec whose target references the nonexistent label nope. -/
def c5bad : PackSpec :=
  { name := "p1", description := "", platform := "",
    queries := [], targets := { labels := ["nope"] } }

/-- Store for the round-trip scenario: labels b then a (so the label table
scan order differs from the submitted target order), one known query, no
packs. -/
def c2st : State :=
  { packs := [], scheduled_queries := [], pack_targets := [],
    labels := [{ id := 1, name := "b", deleted := false },
               { id := 2, name := "a", deleted := false }],
    queries := ["q1"], hosts := [], lqes := [] }

/-- Round-trip spec submitting target labels in the order a, b. -/
def c2spec : PackSpec :=
  { name := "p", description := "d", platform := "pl",
    queries := [{ query_name := "q1", name := "n1", description := "",
                  interval := 7, snapshot := true, removed := false,
                  shard := some 50, platform := "linux", version := "1" }],
    targets := { labels := ["a", "b"] } }

/-- Store with one pack that currently has an explicit host target, for
the target-replacement scenario. -/
def c10st : State :=
  { packs := [{ id := 1, name := "P", description := "", platform := "",
                disabled := false, deleted := false }],
    scheduled_queries := [],
    pack_targets := [{ pack_id := 1, type := TargetType.host, target_id := 7 }],
    labels := [{ id := 4, name := "L", deleted := false }],
    queries := [], hosts := [7], lqes := [] }

/-- Spec re-declaring pack P with a single label target. -/
def c10spec : PackSpec :=
  { name := "P", description := "", platform := "", queries := [],
    targets := { labels := ["L"] } }

/-- Store for the idempotence scenario: labels y then x, one known query,
no packs. -/
def c6st : State :=
  { packs := [], scheduled_queries := [], pack_targets := [],
    labels := [{ id := 1, name := "y", deleted := false },
               { id := 2, name := "x", deleted := false }],
    queries := ["qz"], hosts := [], lqes := [] }

/-- Idempotence spec: one scheduled query and targets submitted as x, y. -/
def c6spec : PackSpec :=
  { name := "q", description := "", platform := "",
    queries := [{ query_name := "qz", name := "nz", description := "",
                  interval := 30, snapshot := false, removed := true,
                  shard := none, platform := "", version := "" }],
    targets := { labels := ["x", "y"] } }

theorem updRow_id (spec : PackSpec) (p : PackRow) :
    (updRow spec p).id = p.id := by
  unfold updRow
  split
  · rfl
  · rfl

theorem updRow_name (spec : PackSpec) (p : PackRow) :
    (updRow spec p).name = p.name := by
  unfold updRow
  split
  · rfl
  · rfl

theorem updRow_disabled (spec : PackSpec) (p : PackRow) :
    (updRow spec p).disabled = p.disabled := by
  unfold updRow
  split
  · rfl
  · rfl

theorem updRow_match (spec : PackSpec) (p : PackRow)
    (h : p.name = spec.name) :
    updRow spec p = ({ p with description := spec.description,
                              platform := spec.platform,
                              deleted := false } : PackRow) := by
  unfold updRow
  rw [if_pos (by simpa using h)]

theorem updRow_nomatch (spec : PackSpec) (p : PackRow)
    (h : p.name ≠ spec.name) : updRow spec p = p := by
  unfold updRow
  rw [if_neg (by simpa using h)]

theorem upsertPacks_find_isSome (packs : List PackRow) (spec : PackSpec) :
    (findPackId (upsertPacks packs spec) spec.name).isSome = true := by
  unfold upsertPacks findPackId
  by_cases h : packs.any (fun p => p.name == spec.name) = true
  · rw [if_pos h]
    rw [List.any_eq_true] at h
    obtain ⟨p, hp, hname⟩ := h
    have hfind : (List.find? (fun p => p.name == spec.name)
        (packs.map (updRow spec))).isSome = true := by
      rw [List.find?_isSome]
      refine ⟨updRow spec p, List.mem_map_of_mem _ hp, ?_⟩
      rw [updRow_name]
      exact hname
    obtain ⟨x, hx⟩ := Option.isSome_iff_exists.mp hfind
    rw [hx]
    rfl
  · rw [if_neg h]
    have hfind : (List.find? (fun p => p.name == spec.name)
        (packs ++ [newPackRow packs spec])).isSome = true := by
      rw [List.find?_isSome]
      refine ⟨_, List.mem_append_right _ (List.mem_singleton_self _), ?_⟩
      simp [newPackRow]
    obtain ⟨x, hx⟩ := Option.isSome_iff_exists.mp hfind
    rw [hx]
    rfl

theorem applySchedLoop_ok (known : List String) (pid : Nat)
    (acc : List ScheduledQueryRow) (qs : List PackSpecQuery)
    (h : ∀ q ∈ qs, q.query_name ∈ known) :
    applySchedLoop known pid acc qs =
      Except.ok (acc ++ qs.map (mkSchedRow pid)) := by
  induction qs generalizing acc with
  | nil => simp [applySchedLoop]
  | cons q rest ih =>
    have hq : known.contains q.query_name = true := by
      simpa using h q (List.mem_cons_self q rest)
    rw [applySchedLoop, if_pos hq, ih _ (fun x hx => h x (List.mem_cons_of_mem _ hx))]
    simp

theorem applySchedLoop_err (known : List String) (pid : Nat)
    (acc : List ScheduledQueryRow) (qs : List PackSpecQuery)
    (h : ¬ ∀ q ∈ qs, q.query_name ∈ known) :
    ∃ qb ∈ qs, qb.query_name ∉ known ∧
      applySchedLoop known pid acc qs =
        Except.error ("cannot schedule unknown query \x27" ++ qb.query_name ++ "\x27") := by
  induction qs generalizing acc with
  | nil => exact absurd (by simp) h
  | cons q rest ih =>
    by_cases hq : q.query_name ∈ known
    · have hrest : ¬ ∀ x ∈ rest, x.query_name ∈ known := by
        intro hall
        exact h (by
          intro x hx
          rcases List.mem_cons.mp hx with rfl | hx
          · exact hq
          · exact hall x hx)
      obtain ⟨qb, hqb, hqbn, heq⟩ := ih (acc ++ [mkSchedRow pid q]) hrest
      refine ⟨qb, List.mem_cons_of_mem _ hqb, hqbn, ?_⟩
      rw [applySchedLoop, if_pos (by simpa using hq)]
      exact heq
    · refine ⟨q, List.mem_cons_self _ _, hq, ?_⟩
      rw [applySchedLoop, if_neg (by simpa using hq)]

theorem applyTargetLoop_ok (labels : List LabelRow) (pid : Nat)
    (acc : List PackTargetRow) (ns : List String)
    (h : ∀ n ∈ ns, (findLabelId labels n).isSome = true) :
    applyTargetLoop labels pid acc ns =
      Except.ok (acc ++ ns.map (fun n => mkTargetRow pid (labelIdOf labels n))) := by
  induction ns generalizing acc with
  | nil => simp [applyTargetLoop]
  | cons n rest ih =>
    have hn := h n (List.mem_cons_self n rest)
    obtain ⟨lid, hlid⟩ := Option.isSome_iff_exists.mp hn
    rw [applyTargetLoop, hlid]
    simp only []
    rw [ih _ (fun x hx => h x (List.mem_cons_of_mem _ hx))]
    have hlv : labelIdOf labels n = lid := by
      unfold labelIdOf
      unfold findLabelId at hlid
      rw [hlid]
      rfl
    simp [hlv]

theorem applyTargetLoop_err (labels : List LabelRow) (pid : Nat)
    (acc : List PackTargetRow) (ns : List String)
    (h : ¬ ∀ n ∈ ns, (findLabelId labels n).isSome = true) :
    applyTargetLoop labels pid acc ns = Except.error "adding label to pack" := by
  induction ns generalizing acc with
  | nil => exact absurd (by simp) h
  | cons n rest ih =>
    by_cases hn : (findLabelId labels n).isSome = true
    · obtain ⟨lid, hlid⟩ := Option.isSome_iff_exists.mp hn
      have hrest : ¬ ∀ x ∈ rest, (findLabelId labels x).isSome = true := by
        intro hall
        exact h (by
          intro x hx
          rcases List.mem_cons.mp hx with rfl | hx
          · exact hn
          · exact hall x hx)
      rw [applyTargetLoop, hlid]
      exact ih _ hrest
    · rw [applyTargetLoop]
      rcases hcase : findLabelId labels n with _ | lid
      · rfl
      · exact absurd (by simp [hcase]) hn

theorem applyPackSpec_ok_of_conds (st : State) (spec : PackSpec)
    (h : applyConds st spec) :
    applyPackSpec st spec = Except.ok (applyStruct st spec) := by
  obtain ⟨hq, hl⟩ := h
  obtain ⟨pid, hpid⟩ :=
    Option.isSome_iff_exists.mp (upsertPacks_find_isSome st.packs spec)
  have hpid2 : pidOf st spec = pid := by
    unfold pidOf
    rw [hpid]
    rfl
  unfold applyPackSpec
  rw [hpid]
  simp only []
  rw [applySchedLoop_ok _ _ _ _ hq]
  simp only []
  rw [applyTargetLoop_ok _ _ _ _ hl]
  simp only []
  unfold applyStruct
  rw [hpid2]

theorem applyPackSpec_ok_iff (st : State) (spec : PackSpec) (st' : State) :
    applyPackSpec st spec = Except.ok st' ↔
      applyConds st spec ∧ st' = applyStruct st spec := by
  constructor
  · intro h
    by_cases hq : ∀ q ∈ spec.queries, q.query_name ∈ st.queries
    · by_cases hl : ∀ n ∈ spec.targets.labels, (findLabelId st.labels n).isSome = true
      · have := applyPackSpec_ok_of_conds st spec ⟨hq, hl⟩
        rw [this] at h
        exact ⟨⟨hq, hl⟩, (Except.ok.injEq _ _).mp h.symm⟩
      · exfalso
        unfold applyPackSpec at h
        obtain ⟨pid, hpid⟩ :=
          Option.isSome_iff_exists.mp (upsertPacks_find_isSome st.packs spec)
        rw [hpid] at h
        simp only [] at h
        rw [applySchedLoop_ok _ _ _ _ hq] at h
        simp only [] at h
        rw [applyTargetLoop_err _ _ _ _ hl] at h
        exact Except.noConfusion h
    · exfalso
      unfold applyPackSpec at h
      obtain ⟨pid, hpid⟩ :=
        Option.isSome_iff_exists.mp (upsertPacks_find_isSome st.packs spec)
      rw [hpid] at h
      simp only [] at h
      obtain ⟨qb, _, _, heq⟩ := applySchedLoop_err st.queries pid
        (st.scheduled_queries.filter (fun r => !(r.pack_id == pid))) spec.queries hq
      rw [heq] at h
      exact Except.noConfusion h
  · rintro ⟨hc, rfl⟩
    exact applyPackSpec_ok_of_conds st spec hc

theorem applyStruct_tables (st : State) (spec : PackSpec) :
    (applyStruct st spec).queries = st.queries ∧
    (applyStruct st spec).labels = st.labels ∧
    (applyStruct st spec).hosts = st.hosts ∧
    (applyStruct st spec).lqes = st.lqes := by
  unfold applyStruct
  exact ⟨rfl, rfl, rfl, rfl⟩

theorem ApplyPackSpecs_ok_inv (specs : List PackSpec) (st st' : State)
    (h : ApplyPackSpecs st specs = Except.ok st') :
    applyAllOk st specs = some st' := by
  induction specs generalizing st with
  | nil =>
    unfold ApplyPackSpecs at h
    unfold applyAllOk
    exact congrArg some ((Except.ok.injEq _ _).mp h)
  | cons s rest ih =>
    unfold ApplyPackSpecs at h
    unfold applyAllOk
    cases hs : applyPackSpec st s with
    | error e =>
      rw [hs] at h
      exact Except.noConfusion h
    | ok st1 =>
      rw [hs] at h
      exact ih st1 h

theorem ApplyPackSpecs_err_inv (specs : List PackSpec) (st : State) (e : String)
    (h : ApplyPackSpecs st specs = Except.error e) :
    applyAllOk st specs = none ∧
    ∃ s stMid inner, s ∈ specs ∧ applyPackSpec stMid s = Except.error inner ∧
      e = "applying pack \x27" ++ s.name ++ "\x27: " ++ inner := by
  induction specs generalizing st with
  | nil =>
    unfold ApplyPackSpecs at h
    exact Except.noConfusion h
  | cons s rest ih =>
    unfold ApplyPackSpecs at h
    cases hs : applyPackSpec st s with
    | error inner =>
      rw [hs] at h
      refine ⟨?_, s, st, inner, List.mem_cons_self _ _, hs,
        ((Except.error.injEq _ _).mp h).symm⟩
      unfold applyAllOk
      rw [hs]
    | ok st1 =>
      rw [hs] at h
      obtain ⟨hnone, s2, stMid, inner, hmem, herr, hmsg⟩ := ih st1 h
      refine ⟨?_, s2, stMid, inner, List.mem_cons_of_mem _ hmem, herr, hmsg⟩
      unfold applyAllOk
      rw [hs]
      exact hnone

theorem ApplyPackSpecs_of_allOk (specs : List PackSpec) (st st' : State)
    (h : applyAllOk st specs = some st') :
    ApplyPackSpecs st specs = Except.ok st' := by
  induction specs generalizing st with
  | nil =>
    unfold applyAllOk at h
    unfold ApplyPackSpecs
    exact congrArg Except.ok (Option.some.inj h)
  | cons s rest ih =>
    unfold applyAllOk at h
    unfold ApplyPackSpecs
    cases hs : applyPackSpec st s with
    | error e =>
      rw [hs] at h
      exact Option.noConfusion h
    | ok st1 =>
      rw [hs] at h
      exact ih st1 h

theorem applyAllOk_tables (specs : List PackSpec) (st st' : State)
    (h : applyAllOk st specs = some st') :
    st'.queries = st.queries ∧ st'.labels = st.labels ∧
    st'.hosts = st.hosts ∧ st'.lqes = st.lqes := by
  induction specs generalizing st with
  | nil =>
    unfold applyAllOk at h
    have : st = st' := Option.some.inj h
    subst this
    exact ⟨rfl, rfl, rfl, rfl⟩
  | cons s rest ih =>
    unfold applyAllOk at h
    cases hs : applyPackSpec st s with
    | error e =>
      rw [hs] at h
      exact Option.noConfusion h
    | ok st1 =>
      rw [hs] at h
      obtain ⟨hc, hst1⟩ := (applyPackSpec_ok_iff st s st1).mp hs
      obtain ⟨h1, h2, h3, h4⟩ := ih st1 h
      subst hst1
      obtain ⟨t1, t2, t3, t4⟩ := applyStruct_tables st s
      exact ⟨h1.trans t1, h2.trans t2, h3.trans t3, h4.trans t4⟩

/-- C1: ApplyPackSpecs is all-or-nothing over the whole batch: when every
spec applies, the committed state is the sequential application of all of
them; when any inner step fails, the transaction is rolled back (the caller
keeps the pre-transaction state unchanged), the sequential application is
aborted, and the returned error wraps the inner error with the name of the
pack whose spec failed. -/
theorem applyPackSpecs_atomicity (st : State) (specs : List PackSpec) :
    (∀ st', ApplyPackSpecs st specs = Except.ok st' →
      applyPackSpecsRun st specs = (st', none) ∧ applyAllOk st specs = some st') ∧
    (∀ e, ApplyPackSpecs st specs = Except.error e →
      applyPackSpecsRun st specs = (st, some e) ∧ applyAllOk st specs = none ∧
      ∃ s stMid inner, s ∈ specs ∧ applyPackSpec stMid s = Except.error inner ∧
        e = "applying pack \x27" ++ s.name ++ "\x27: " ++ inner) := by
  constructor
  · intro st' h
    constructor
    · unfold applyPackSpecsRun
      rw [h]
    · exact ApplyPackSpecs_ok_inv specs st st' h
  · intro e h
    obtain ⟨hnone, hex⟩ := ApplyPackSpecs_err_inv specs st e h
    refine ⟨?_, hnone, hex⟩
    unfold applyPackSpecsRun
    rw [h]

/-- C1 witness: a three-spec batch whose second spec references an unknown
query rolls back to the initial state and the error names pack B. -/
theorem applyPackSpecs_atomicity_witness :
    applyPackSpecsRun c1st [c1specA, c1specB, c1specC] =
      (c1st, some "applying pack \x27B\x27: cannot schedule unknown query \x27zzz\x27") ∧
    applyAllOk c1st [c1specA, c1specB, c1specC] = none ∧
    ∃ s stMid inner, s ∈ [c1specA, c1specB, c1specC] ∧
      applyPackSpec stMid s = Except.error inner ∧
      "applying pack \x27B\x27: cannot schedule unknown query \x27zzz\x27" =
        "applying pack \x27" ++ s.name ++ "\x27: " ++ inner :=
  (applyPackSpecs_atomicity c1st [c1specA, c1specB, c1specC]).2
    "applying pack \x27B\x27: cannot schedule unknown query \x27zzz\x27" (by rfl)

/-- C8: the pack write of applyPackSpec is an upsert keyed on name alone:
when a row with the spec name exists (soft-deleted included) that row keeps
its id, gets the new description and platform and a cleared delete flag, no
row is added and no duplicate-key conflict arises (names unchanged); rows
with other names are untouched; when no name matches, exactly the one fresh
row is appended; and on success the packs table of applyPackSpec is exactly
this upsert. -/
theorem upsertPacks_by_name (st : State) (spec : PackSpec) :
    ((∃ p ∈ st.packs, p.name = spec.name) →
      (upsertPacks st.packs spec).length = st.packs.length ∧
      packNames (upsertPacks st.packs spec) = packNames st.packs ∧
      ∀ p ∈ st.packs, p.name = spec.name →
        ({ p with description := spec.description,
                  platform := spec.platform, deleted := false } : PackRow) ∈
          upsertPacks st.packs spec) ∧
    (∀ p ∈ st.packs, p.name ≠ spec.name → p ∈ upsertPacks st.packs spec) ∧
    ((∀ p ∈ st.packs, p.name ≠ spec.name) →
      upsertPacks st.packs spec = st.packs ++ [newPackRow st.packs spec]) ∧
    (∀ st', applyPackSpec st spec = Except.ok st' →
      st'.packs = upsertPacks st.packs spec) := by
  refine ⟨?_, ?_, ?_, ?_⟩
  · rintro ⟨p, hp, hname⟩
    have hany : st.packs.any (fun p => p.name == spec.name) = true := by
      rw [List.any_eq_true]
      exact ⟨p, hp, by simpa using hname⟩
    unfold upsertPacks
    rw [if_pos hany]
    refine ⟨List.length_map _ _, ?_, ?_⟩
    · unfold packNames
      rw [List.map_map]
      refine List.map_congr_left ?_
      intro x _
      exact updRow_name spec x
    · intro q hq hqname
      exact (updRow_match spec q hqname) ▸ List.mem_map_of_mem _ hq
  · intro p hp hname
    unfold upsertPacks
    by_cases hany : st.packs.any (fun p => p.name == spec.name) = true
    · rw [if_pos hany]
      exact (updRow_nomatch spec p hname) ▸ List.mem_map_of_mem _ hp
    · rw [if_neg hany]
      exact List.mem_append_left _ hp
  · intro hall
    unfold upsertPacks
    rw [if_neg ?_]
    rw [List.any_eq_true]
    rintro ⟨p, hp, hname⟩
    exact hall p hp (by simpa using hname)
  · intro st' h
    obtain ⟨_, hst⟩ := (applyPackSpec_ok_iff st spec st').mp h
    subst hst
    rfl

/-- C8 witness: re-creating the soft-deleted pack p updates the row in
place (same id, cleared delete flag, new description and platform) without
adding a row. -/
theorem upsertPacks_by_name_witness :
    (upsertPacks c8st.packs c8spec).length = c8st.packs.length ∧
    packNames (upsertPacks c8st.packs c8spec) = packNames c8st.packs ∧
    ({ id := 3, name := "p", description := "new", platform := "plat",
       disabled := true, deleted := false } : PackRow) ∈
      upsertPacks c8st.packs c8spec := by
  have hp : c8oldRow ∈ c8st.packs := by
    simp [c8st]
  have h := (upsertPacks_by_name c8st c8spec).1 ⟨_, hp, rfl⟩
  exact ⟨h.1, h.2.1, h.2.2 _ hp rfl⟩

/-- C3 amended: ListHostsInPack is the targeting union restricted to
enrolled hosts, and its explicit-host branch additionally requires the
match cache to be nonempty (the cross join needs some
label_query_executions row even for host-kind targets); an empty cache
yields the empty result, a pack with no targets yields the empty result,
and the result is duplicate-free. -/
theorem listHostsInPack_characterization (st : State) (pid : Nat) :
    (st.lqes = [] → ListHostsInPack st pid = []) ∧
    (∀ h, h ∈ ListHostsInPack st pid ↔
      h ∈ st.hosts ∧ ∃ pt ∈ st.pack_targets, pt.pack_id = pid ∧
        ((pt.target_id = h ∧ pt.type = TargetType.host ∧ st.lqes ≠ []) ∨
         (pt.type = TargetType.label ∧ ∃ lqe ∈ st.lqes,
            pt.target_id = lqe.label_id ∧ lqe.host_id = h ∧
            lqe.matches_ = true))) ∧
    (ListHostsInPack st pid).Nodup ∧
    ((∀ pt ∈ st.pack_targets, pt.pack_id ≠ pid) →
      ListHostsInPack st pid = []) := by
  refine ⟨?_, ?_, List.nodup_dedup _, ?_⟩
  · intro h
    unfold ListHostsInPack
    rw [h]
    simp
  · intro h
    unfold ListHostsInPack
    rw [List.mem_dedup]
    simp only [List.mem_flatMap, List.mem_filterMap]
    constructor
    · rintro ⟨x, hx, pt, hpt, lqe, hlqe, hif⟩
      by_cases hc : ((pt.target_id = lqe.label_id ∧ lqe.host_id = x ∧
          lqe.matches_ = true ∧ pt.type = TargetType.label) ∨
          (pt.target_id = x ∧ pt.type = TargetType.host)) ∧ pt.pack_id = pid
      · rw [if_pos hc] at hif
        obtain ⟨hor, hpid⟩ := hc
        have hxh : x = h := Option.some.inj hif
        subst hxh
        refine ⟨hx, pt, hpt, hpid, ?_⟩
        rcases hor with ⟨h1, h2, h3, h4⟩ | ⟨h1, h2⟩
        · exact Or.inr ⟨h4, lqe, hlqe, h1, h2, h3⟩
        · exact Or.inl ⟨h1, h2, List.ne_nil_of_mem hlqe⟩
      · rw [if_neg hc] at hif
        exact Option.noConfusion hif
    · rintro ⟨hh, pt, hpt, hpid, hor⟩
      rcases hor with ⟨h1, h2, h3⟩ | ⟨h1, lqe, hlqe, h2, h3, h4⟩
      · obtain ⟨lqe, hlqe⟩ := List.exists_mem_of_ne_nil _ h3
        refine ⟨h, hh, pt, hpt, lqe, hlqe, ?_⟩
        rw [if_pos ⟨Or.inr ⟨h1, h2⟩, hpid⟩]
      · refine ⟨h, hh, pt, hpt, lqe, hlqe, ?_⟩
        rw [if_pos ⟨Or.inl ⟨h2, h3, h4, h1⟩, hpid⟩]
  · intro hnone
    unfold ListHostsInPack
    have : ∀ x ∈ st.hosts, (st.pack_targets.flatMap (fun pt =>
        st.lqes.filterMap (fun lqe =>
          if ((pt.target_id = lqe.label_id ∧ lqe.host_id = x ∧
               lqe.matches_ = true ∧ pt.type = TargetType.label) ∨
              (pt.target_id = x ∧ pt.type = TargetType.host)) ∧
             pt.pack_id = pid
          then some x else none))) = [] := by
      intro x _
      rw [List.flatMap_eq_nil_iff]
      intro pt hpt
      rw [List.filterMap_eq_nil_iff]
      intro lqe _
      rw [if_neg]
      rintro ⟨_, hpid⟩
      exact hnone pt hpt hpid
    rw [List.flatMap_eq_nil_iff.mpr]
    · rfl
    · intro x hx
      exact this x hx

/-- C3 counterexample: with the empty match cache of c3stA, host 5 is
explicitly targeted by pack 1 yet ListHostsInPack returns nothing, and in
c3stB the targeted host id 5 is absent from the hosts table and is likewise
not returned although the cache is nonempty; the claimed plain union would
contain 5 in both stores. -/
theorem listHostsInPack_counterexample :
    (∃ pt ∈ c3stA.pack_targets, pt.pack_id = 1 ∧
      pt.type = TargetType.host ∧ pt.target_id = 5) ∧
    ListHostsInPack c3stA 1 = [] ∧
    (∃ pt ∈ c3stB.pack_targets, pt.pack_id = 1 ∧
      pt.type = TargetType.host ∧ pt.target_id = 5) ∧
    ListHostsInPack c3stB 1 = [] := by
  refine ⟨⟨⟨1, TargetType.host, 5⟩, by decide, by decide⟩, by decide,
    ⟨⟨1, TargetType.host, 5⟩, by decide, by decide⟩, by decide⟩

/-- C3 witness: the characterization applied to the store c3stA whose
match cache is empty — the empty-cache hypothesis is discharged
concretely and the membership equivalence is instantiated at host 5. -/
theorem listHostsInPack_characterization_witness :
    ListHostsInPack c3stA 1 = [] ∧
    (5 ∈ ListHostsInPack c3stA 1 ↔
      5 ∈ c3stA.hosts ∧ ∃ pt ∈ c3stA.pack_targets, pt.pack_id = 1 ∧
        ((pt.target_id = 5 ∧ pt.type = TargetType.host ∧ c3stA.lqes ≠ []) ∨
         (pt.type = TargetType.label ∧ ∃ lqe ∈ c3stA.lqes,
            pt.target_id = lqe.label_id ∧ lqe.host_id = 5 ∧
            lqe.matches_ = true))) :=
  ⟨(listHostsInPack_characterization c3stA 1).1 rfl,
   (listHostsInPack_characterization c3stA 1).2.1 5⟩

/-- C7 amended: ListPacksForHost returns exactly the distinct enabled packs
reached through a label-kind target with a positive match row for the
host; explicit host-kind targets are not consulted by this query, and
disabled packs are excluded. -/
theorem listPacksForHost_characterization (st : State) (hid : Nat) :
    (∀ p ∈ ListPacksForHost st hid, p.disabled = false) ∧
    (∀ p, p ∈ ListPacksForHost st hid ↔
      p ∈ st.packs ∧ p.disabled = false ∧
      ∃ pt ∈ st.pack_targets, p.id = pt.pack_id ∧
        pt.type = TargetType.label ∧
        ∃ lqe ∈ st.lqes, pt.target_id = lqe.label_id ∧
          lqe.matches_ = true ∧ lqe.host_id = hid) ∧
    (ListPacksForHost st hid).Nodup := by
  have hmem : ∀ p, p ∈ ListPacksForHost st hid ↔
      p ∈ st.packs ∧ p.disabled = false ∧
      ∃ pt ∈ st.pack_targets, p.id = pt.pack_id ∧
        pt.type = TargetType.label ∧
        ∃ lqe ∈ st.lqes, pt.target_id = lqe.label_id ∧
          lqe.matches_ = true ∧ lqe.host_id = hid := by
    intro p
    unfold ListPacksForHost
    rw [List.mem_dedup]
    simp only [List.mem_flatMap, List.mem_filterMap]
    constructor
    · rintro ⟨x, hx, pt, hpt, lqe, hlqe, hif⟩
      by_cases hc : (x.id = pt.pack_id ∧ pt.target_id = lqe.label_id ∧
          pt.type = TargetType.label ∧ lqe.matches_ = true) ∧
          lqe.host_id = hid ∧ x.disabled = false
      · rw [if_pos hc] at hif
        obtain ⟨⟨h1, h2, h3, h4⟩, h5, h6⟩ := hc
        have hxp : x = p := Option.some.inj hif
        subst hxp
        exact ⟨hx, h6, pt, hpt, h1, h3, lqe, hlqe, h2, h4, h5⟩
      · rw [if_neg hc] at hif
        exact Option.noConfusion hif
    · rintro ⟨hp, hdis, pt, hpt, h1, h2, lqe, hlqe, h3, h4, h5⟩
      refine ⟨p, hp, pt, hpt, lqe, hlqe, ?_⟩
      rw [if_pos ⟨⟨h1, h3, h2, h4⟩, h5, hdis⟩]
  refine ⟨?_, hmem, List.nodup_dedup _⟩
  intro p hp
  exact ((hmem p).mp hp).2.1

/-- C7 counterexample: in c7st host 7 is explicitly targeted by the enabled
pack 1 (and the match cache is nonempty), yet ListPacksForHost returns no
pack, while the claim demands pack 1 in the result. -/
theorem listPacksForHost_counterexample :
    (∃ pt ∈ c7st.pack_targets, pt.pack_id = 1 ∧
      pt.type = TargetType.host ∧ pt.target_id = 7) ∧
    (∀ p ∈ c7st.packs, p.disabled = false) ∧
    ListPacksForHost c7st 7 = [] := by
  refine ⟨⟨⟨1, TargetType.host, 7⟩, by decide, by decide⟩, by decide, by decide⟩

/-- C7 witness: the characterization applied to c7st and host 7, giving the
label-only membership condition concretely. -/
theorem listPacksForHost_characterization_witness :
    ∀ p ∈ ListPacksForHost c7st 7, p.disabled = false :=
  (listPacksForHost_characterization c7st 7).1

/-- C9 amended: soft-deleted packs are invisible to ListPacks, Pack and
PackByName, but GetPackSpecs has no deleted filter, and ListHostsInPack
never reads the labels table at all: replacing it (in particular marking
every label deleted) cannot change or fail the host resolution, so a
soft-deleted label keeps contributing its matched hosts. -/
theorem softDelete_visibility (st : State) (pid : Nat) (name : String)
    (lbls : List LabelRow) :
    (ListPacks st).all (fun p => !p.deleted) = true ∧
    (Pack st pid).all (fun p => !p.deleted) = true ∧
    (PackByName st name).all (fun p => !p.deleted) = true ∧
    ListHostsInPack { st with labels := lbls } pid = ListHostsInPack st pid := by
  refine ⟨?_, ?_, ?_, rfl⟩
  · rw [List.all_eq_true]
    intro p hp
    exact (List.mem_filter.mp hp).2
  · unfold Pack
    cases hf : st.packs.find? (fun p => p.id == pid && !p.deleted) with
    | none => rfl
    | some p =>
      have := List.find?_some hf
      simp only [Bool.and_eq_true] at this
      simp [Option.all, this.2]
  · unfold PackByName
    cases hf : st.packs.find? (fun p => p.name == name && !p.deleted) with
    | none => rfl
    | some p =>
      have := List.find?_some hf
      simp only [Bool.and_eq_true] at this
      simp [Option.all, this.2]

/-- C9 counterexample: the soft-deleted pack of c9stD still appears in
GetPackSpecs (the read-back has no deleted filter), and in c9stE the only
target label is soft-deleted yet host 7 is still resolved for pack 1
instead of the claimed explicit-hosts-only result. -/
theorem softDelete_visibility_counterexample :
    GetPackSpecs c9stD =
      [{ name := "gone", description := "d", platform := "pl",
         queries := [], targets := { labels := [] } }] ∧
    (∀ l ∈ c9stE.labels, l.deleted = true) ∧
    ListHostsInPack c9stE 1 = [7] ∧
    ListExplicitHostsInPack c9stE 1 = [] := by
  refine ⟨by decide, by decide, by decide, by decide⟩

theorem ApplyPackSpecs_cons_ok (st st1 : State) (s : PackSpec)
    (rest : List PackSpec) (hs : applyPackSpec st s = Except.ok st1) :
    ApplyPackSpecs st (s :: rest) = ApplyPackSpecs st1 rest := by
  unfold ApplyPackSpecs
  rw [hs]
  simp only []
  cases rest with
  | nil => rfl
  | cons a b => rfl

theorem ApplyPackSpecs_cons_err (st : State) (s : PackSpec) (e : String)
    (rest : List PackSpec) (hs : applyPackSpec st s = Except.error e) :
    ApplyPackSpecs st (s :: rest) =
      Except.error ("applying pack \x27" ++ s.name ++ "\x27: " ++ e) := by
  unfold ApplyPackSpecs
  rw [hs]

theorem ApplyPackSpecs_append (st : State) (l1 l2 : List PackSpec) :
    ApplyPackSpecs st (l1 ++ l2) =
      match ApplyPackSpecs st l1 with
      | Except.ok m => ApplyPackSpecs m l2
      | Except.error e => Except.error e := by
  induction l1 generalizing st with
  | nil => rfl
  | cons s rest ih =>
    rw [List.cons_append]
    cases hs : applyPackSpec st s with
    | error e =>
      rw [ApplyPackSpecs_cons_err st s e (rest ++ l2) hs,
        ApplyPackSpecs_cons_err st s e rest hs]
    | ok st1 =>
      rw [ApplyPackSpecs_cons_ok st st1 s (rest ++ l2) hs,
        ApplyPackSpecs_cons_ok st st1 s rest hs]
      exact ih st1

theorem applyPackSpec_unknown_query (st : State) (spec : PackSpec)
    (hbad : ∃ q ∈ spec.queries, q.query_name ∉ st.queries) :
    ∃ qb ∈ spec.queries, qb.query_name ∉ st.queries ∧
      applyPackSpec st spec =
        Except.error ("cannot schedule unknown query \x27" ++ qb.query_name ++ "\x27") := by
  have hnall : ¬ ∀ q ∈ spec.queries, q.query_name ∈ st.queries := by
    obtain ⟨q, hq, hqn⟩ := hbad
    intro hall
    exact hqn (hall q hq)
  obtain ⟨pid, hpid⟩ :=
    Option.isSome_iff_exists.mp (upsertPacks_find_isSome st.packs spec)
  obtain ⟨qb, hqb, hqbn, heq⟩ := applySchedLoop_err st.queries pid
    (st.scheduled_queries.filter (fun r => !(r.pack_id == pid)))
    spec.queries hnall
  refine ⟨qb, hqb, hqbn, ?_⟩
  unfold applyPackSpec
  rw [hpid]
  simp only []
  rw [heq]

theorem applyPackSpec_unknown_label (st : State) (spec : PackSpec)
    (hq : ∀ q ∈ spec.queries, q.query_name ∈ st.queries)
    (hbad : ∃ n ∈ spec.targets.labels, findLabelId st.labels n = none) :
    applyPackSpec st spec = Except.error "adding label to pack" := by
  have hnall : ¬ ∀ n ∈ spec.targets.labels, (findLabelId st.labels n).isSome = true := by
    obtain ⟨n, hn, hnone⟩ := hbad
    intro hall
    have := hall n hn
    rw [hnone] at this
    exact Bool.noConfusion this
  obtain ⟨pid, hpid⟩ :=
    Option.isSome_iff_exists.mp (upsertPacks_find_isSome st.packs spec)
  unfold applyPackSpec
  rw [hpid]
  simp only []
  rw [applySchedLoop_ok _ _ _ _ hq]
  simp only []
  rw [applyTargetLoop_err _ _ _ _ hnall]

/-- C4: a scheduled query referencing a nonexistent query name makes
ApplyPackSpecs fail with the distinct unknown-query validation error, whose
text names both the offending query (inner message) and the owning pack
(the wrap); the whole batch is rolled back, so the caller keeps the
pre-transaction state with no partial scheduled-query rows. -/
theorem applyPackSpecs_unknown_query (st : State) (pre : List PackSpec)
    (spec : PackSpec) (post : List PackSpec) (st1 : State)
    (hpre : ApplyPackSpecs st pre = Except.ok st1)
    (hbad : ∃ q ∈ spec.queries, q.query_name ∉ st1.queries) :
    ∃ qn, (∃ q ∈ spec.queries, q.query_name = qn) ∧ qn ∉ st1.queries ∧
      ApplyPackSpecs st (pre ++ spec :: post) =
        Except.error ("applying pack \x27" ++ spec.name ++ "\x27: " ++
          ("cannot schedule unknown query \x27" ++ qn ++ "\x27")) ∧
      applyPackSpecsRun st (pre ++ spec :: post) =
        (st, some ("applying pack \x27" ++ spec.name ++ "\x27: " ++
          ("cannot schedule unknown query \x27" ++ qn ++ "\x27"))) := by
  obtain ⟨qb, hqb, hqbn, herr⟩ := applyPackSpec_unknown_query st1 spec hbad
  refine ⟨qb.query_name, ⟨qb, hqb, rfl⟩, hqbn, ?_⟩
  have hfull : ApplyPackSpecs st (pre ++ spec :: post) =
      Except.error ("applying pack \x27" ++ spec.name ++ "\x27: " ++
        ("cannot schedule unknown query \x27" ++ qb.query_name ++ "\x27")) := by
    rw [ApplyPackSpecs_append, hpre]
    simp only []
    rw [ApplyPackSpecs_cons_err st1 spec _ post herr]
  refine ⟨hfull, ?_⟩
  unfold applyPackSpecsRun
  rw [hfull]

/-- C4 witness: the batch [c4pre, c4bad, c4post] over c4st fails with the
unknown-query error naming ghost and packX, leaving the store untouched. -/
theorem applyPackSpecs_unknown_query_witness :
    ∃ qn, (∃ q ∈ c4bad.queries, q.query_name = qn) ∧
      qn ∉ (applyPackSpecsRun c4st [c4pre]).1.queries ∧
      ApplyPackSpecs c4st ([c4pre] ++ c4bad :: [c4post]) =
        Except.error ("applying pack \x27" ++ c4bad.name ++ "\x27: " ++
          ("cannot schedule unknown query \x27" ++ qn ++ "\x27")) ∧
      applyPackSpecsRun c4st ([c4pre] ++ c4bad :: [c4post]) =
        (c4st, some ("applying pack \x27" ++ c4bad.name ++ "\x27: " ++
          ("cannot schedule unknown query \x27" ++ qn ++ "\x27"))) :=
  applyPackSpecs_unknown_query c4st [c4pre] c4bad [c4post] _ (by rfl)
    ⟨{ query_name := "ghost", name := "b", description := "", interval := 5,
       snapshot := false, removed := true, shard := none, platform := "",
       version := "" }, by decide, by decide⟩

/-- C5 amended: a target naming a nonexistent label aborts the whole batch
as a validation failure (nothing, in particular no null-label target row,
is committed: the caller keeps the pre-transaction state), and the error
wrap names the owning pack; but the message is the generic
"adding label to pack" text, which does not name the offending label. -/
theorem applyPackSpecs_unknown_label (st : State) (pre : List PackSpec)
    (spec : PackSpec) (post : List PackSpec) (st1 : State)
    (hpre : ApplyPackSpecs st pre = Except.ok st1)
    (hq : ∀ q ∈ spec.queries, q.query_name ∈ st1.queries)
    (hbad : ∃ n ∈ spec.targets.labels, findLabelId st1.labels n = none) :
    ApplyPackSpecs st (pre ++ spec :: post) =
      Except.error ("applying pack \x27" ++ spec.name ++ "\x27: " ++
        "adding label to pack") ∧
    applyPackSpecsRun st (pre ++ spec :: post) =
      (st, some ("applying pack \x27" ++ spec.name ++ "\x27: " ++
        "adding label to pack")) := by
  have herr := applyPackSpec_unknown_label st1 spec hq hbad
  have hfull : ApplyPackSpecs st (pre ++ spec :: post) =
      Except.error ("applying pack \x27" ++ spec.name ++ "\x27: " ++
        "adding label to pack") := by
    rw [ApplyPackSpecs_append, hpre]
    simp only []
    rw [ApplyPackSpecs_cons_err st1 spec _ post herr]
  refine ⟨hfull, ?_⟩
  unfold applyPackSpecsRun
  rw [hfull]

/-- C5 witness: the batch [c4pre, c5bad] over c4st aborts with the wrapped
generic label error and the store is kept unchanged. -/
theorem applyPackSpecs_unknown_label_witness :
    ApplyPackSpecs c4st ([c4pre] ++ c5bad :: []) =
      Except.error ("applying pack \x27" ++ c5bad.name ++ "\x27: " ++
        "adding label to pack") ∧
    applyPackSpecsRun c4st ([c4pre] ++ c5bad :: []) =
      (c4st, some ("applying pack \x27" ++ c5bad.name ++ "\x27: " ++
        "adding label to pack")) :=
  applyPackSpecs_unknown_label c4st [c4pre] c5bad [] _ (by rfl)
    (by decide) ⟨"nope", by decide, by rfl⟩

/-- C5 counterexample: the error returned for the nonexistent label nope is
exactly the wrapped generic message, and the offending label name nope does
not occur anywhere in it, contradicting the claim that the error reports
the offending label name. -/
theorem applyPackSpecs_unknown_label_counterexample :
    ApplyPackSpecs c4st [c5bad] =
      Except.error "applying pack \x27p1\x27: adding label to pack" ∧
    containsStr "applying pack \x27p1\x27: adding label to pack" "nope" = false := by
  refine ⟨by rfl, by decide⟩

theorem mem_id_le_foldr_max (packs : List PackRow) (p : PackRow)
    (hp : p ∈ packs) : p.id ≤ packs.foldr (fun p m => max p.id m) 0 := by
  induction packs with
  | nil => exact absurd hp (List.not_mem_nil p)
  | cons q rest ih =>
    rcases List.mem_cons.mp hp with rfl | hp2
    · exact le_max_left _ _
    · exact le_trans (ih hp2) (le_max_right _ _)

theorem nextPackId_not_mem (packs : List PackRow) :
    nextPackId packs ∉ packIds packs := by
  intro hmem
  unfold packIds at hmem
  obtain ⟨p, hp, hid⟩ := List.mem_map.mp hmem
  have := mem_id_le_foldr_max packs p hp
  rw [hid] at this
  unfold nextPackId at this
  omega

theorem upsertPacks_insert (packs : List PackRow) (spec : PackSpec)
    (hfresh : ∀ p ∈ packs, p.name ≠ spec.name) :
    upsertPacks packs spec = packs ++ [newPackRow packs spec] := by
  unfold upsertPacks
  rw [if_neg]
  rw [List.any_eq_true]
  rintro ⟨p, hp, hname⟩
  exact hfresh p hp (by simpa using hname)

theorem find?_append_first_none {α : Type} (p : α → Bool) (l1 l2 : List α)
    (h : l1.find? p = none) : (l1 ++ l2).find? p = l2.find? p := by
  induction l1 with
  | nil => rfl
  | cons a rest ih =>
    rw [List.find?_cons] at h
    rw [List.cons_append, List.find?_cons]
    cases hp : p a with
    | false =>
      rw [hp] at h
      exact ih h
    | true =>
      rw [hp] at h
      exact Option.noConfusion h

theorem findPackId_insert (packs : List PackRow) (spec : PackSpec)
    (hfresh : ∀ p ∈ packs, p.name ≠ spec.name) :
    findPackId (packs ++ [newPackRow packs spec]) spec.name =
      some (nextPackId packs) := by
  unfold findPackId
  have hnone : packs.find? (fun p => p.name == spec.name) = none := by
    rw [List.find?_eq_none]
    intro p hp
    simpa using hfresh p hp
  rw [find?_append_first_none _ _ _ hnone]
  have hb : ((newPackRow packs spec).name == spec.name) = true := by
    simp [newPackRow]
  rw [List.find?_cons, hb]
  rfl

theorem pidOf_fresh (st : State) (spec : PackSpec)
    (hfresh : ∀ p ∈ st.packs, p.name ≠ spec.name) :
    pidOf st spec = nextPackId st.packs := by
  unfold pidOf
  rw [upsertPacks_insert st.packs spec hfresh,
    findPackId_insert st.packs spec hfresh]
  rfl

theorem filter_ne_fresh_sq (rows : List ScheduledQueryRow)
    (packs : List PackRow) (i : Nat)
    (hconsist : ∀ r ∈ rows, r.pack_id ∈ packIds packs)
    (hi : i ∉ packIds packs) :
    rows.filter (fun r => !(r.pack_id == i)) = rows := by
  rw [List.filter_eq_self]
  intro r hr
  simp only [Bool.not_eq_true', beq_eq_false_iff_ne, ne_eq]
  intro heq
  exact hi (heq ▸ hconsist r hr)

theorem filter_ne_fresh_pt (rows : List PackTargetRow)
    (packs : List PackRow) (i : Nat)
    (hconsist : ∀ r ∈ rows, r.pack_id ∈ packIds packs)
    (hi : i ∉ packIds packs) :
    rows.filter (fun r => !(r.pack_id == i)) = rows := by
  rw [List.filter_eq_self]
  intro r hr
  simp only [Bool.not_eq_true', beq_eq_false_iff_ne, ne_eq]
  intro heq
  exact hi (heq ▸ hconsist r hr)

theorem applyPackSpec_fresh (st : State) (spec : PackSpec)
    (hfresh : ∀ p ∈ st.packs, p.name ≠ spec.name)
    (hq : ∀ q ∈ spec.queries, q.query_name ∈ st.queries)
    (hl : ∀ n ∈ spec.targets.labels, (findLabelId st.labels n).isSome = true)
    (hinv : Inv st) :
    applyPackSpec st spec = Except.ok
      { st with
        packs := st.packs ++ [newPackRow st.packs spec],
        scheduled_queries := st.scheduled_queries ++
          spec.queries.map (mkSchedRow (nextPackId st.packs)),
        pack_targets := st.pack_targets ++
          spec.targets.labels.map (fun n =>
            mkTargetRow (nextPackId st.packs) (labelIdOf st.labels n)) } := by
  rw [applyPackSpec_ok_of_conds st spec ⟨hq, hl⟩]
  unfold applyStruct
  rw [pidOf_fresh st spec hfresh, upsertPacks_insert st.packs spec hfresh]
  rw [filter_ne_fresh_sq st.scheduled_queries st.packs _ hinv.1
    (nextPackId_not_mem st.packs)]
  rw [filter_ne_fresh_pt st.pack_targets st.packs _ hinv.2
    (nextPackId_not_mem st.packs)]

theorem packIds_append (l1 l2 : List PackRow) :
    packIds (l1 ++ l2) = packIds l1 ++ packIds l2 := by
  unfold packIds
  exact List.map_append _ _ _

theorem sqProj_append (a b : List ScheduledQueryRow) (i : Nat) :
    (a ++ b).filter (fun r => r.pack_id == i) =
      a.filter (fun r => r.pack_id == i) ++ b.filter (fun r => r.pack_id == i) :=
  List.filter_append _ _

theorem sq_block_proj_self (qs : List PackSpecQuery) (pid : Nat) :
    (qs.map (mkSchedRow pid)).filter (fun r => r.pack_id == pid) =
      qs.map (mkSchedRow pid) := by
  rw [List.filter_eq_self]
  intro r hr
  obtain ⟨q, _, rfl⟩ := List.mem_map.mp hr
  simp [mkSchedRow]

theorem sq_block_proj_other (qs : List PackSpecQuery) (pid i : Nat)
    (hne : i ≠ pid) :
    (qs.map (mkSchedRow pid)).filter (fun r => r.pack_id == i) = [] := by
  rw [List.filter_eq_nil_iff]
  intro r hr
  obtain ⟨q, _, rfl⟩ := List.mem_map.mp hr
  simp [mkSchedRow]
  omega

theorem pt_block_proj_self (ns : List String) (labels : List LabelRow)
    (pid : Nat) :
    (ns.map (fun n => mkTargetRow pid (labelIdOf labels n))).filter
        (fun r => r.pack_id == pid) =
      ns.map (fun n => mkTargetRow pid (labelIdOf labels n)) := by
  rw [List.filter_eq_self]
  intro r hr
  obtain ⟨n, _, rfl⟩ := List.mem_map.mp hr
  simp [mkTargetRow]

theorem pt_block_proj_other (ns : List String) (labels : List LabelRow)
    (pid i : Nat) (hne : i ≠ pid) :
    (ns.map (fun n => mkTargetRow pid (labelIdOf labels n))).filter
        (fun r => r.pack_id == i) = [] := by
  rw [List.filter_eq_nil_iff]
  intro r hr
  obtain ⟨n, _, rfl⟩ := List.mem_map.mp hr
  simp [mkTargetRow]
  omega

theorem applyAll_fresh (specs : List PackSpec) :
    ∀ (st : State), Inv st →
    (specs.map PackSpec.name).Nodup →
    (∀ sp ∈ specs, ∀ p ∈ st.packs, p.name ≠ sp.name) →
    (∀ sp ∈ specs, ∀ q ∈ sp.queries, q.query_name ∈ st.queries) →
    (∀ sp ∈ specs, ∀ n ∈ sp.targets.labels,
      (findLabelId st.labels n).isSome = true) →
    ∃ st' rows, ApplyPackSpecs st specs = Except.ok st' ∧
      st'.queries = st.queries ∧ st'.labels = st.labels ∧
      st'.hosts = st.hosts ∧ st'.lqes = st.lqes ∧
      st'.packs = st.packs ++ rows ∧ Inv st' ∧
      (∀ i, i ∈ packIds st.packs →
        sqProj st' i = sqProj st i ∧ ptProj st' i = ptProj st i) ∧
      (∀ r ∈ rows, r.id ∉ packIds st.packs) ∧
      List.Forall₂ (fun sp r =>
        r.name = sp.name ∧ r.description = sp.description ∧
        r.platform = sp.platform ∧ r.deleted = false ∧ r.disabled = false ∧
        sqProj st' r.id = sp.queries.map (mkSchedRow r.id) ∧
        ptProj st' r.id = sp.targets.labels.map
          (fun n => mkTargetRow r.id (labelIdOf st.labels n))) specs rows := by
  induction specs with
  | nil =>
    intro st hinv _ _ _ _
    refine ⟨st, [], rfl, rfl, rfl, rfl, rfl, (List.append_nil _).symm, hinv,
      fun i _ => ⟨rfl, rfl⟩, fun r hr => absurd hr (List.not_mem_nil r),
      List.Forall₂.nil⟩
  | cons s rest ih =>
    intro st hinv hnd hfresh hq hl
    have hfs : ∀ p ∈ st.packs, p.name ≠ s.name :=
      fun p hp => hfresh s (List.mem_cons_self _ _) p hp
    have happly := applyPackSpec_fresh st s hfs
      (hq s (List.mem_cons_self _ _)) (hl s (List.mem_cons_self _ _)) hinv
    have hndc : s.name ∉ rest.map PackSpec.name ∧
        (rest.map PackSpec.name).Nodup := by
      rw [List.map_cons] at hnd
      exact List.nodup_cons.mp hnd
    have hinv1 : Inv { st with
        packs := st.packs ++ [newPackRow st.packs s],
        scheduled_queries := st.scheduled_queries ++
          s.queries.map (mkSchedRow (nextPackId st.packs)),
        pack_targets := st.pack_targets ++
          s.targets.labels.map (fun n =>
            mkTargetRow (nextPackId st.packs) (labelIdOf st.labels n)) } := by
      constructor
      · intro r hr
        rcases List.mem_append.mp hr with hr1 | hr2
        · rw [packIds_append]
          exact List.mem_append_left _ (hinv.1 r hr1)
        · rw [packIds_append]
          refine List.mem_append_right _ ?_
          obtain ⟨q, _, rfl⟩ := List.mem_map.mp hr2
          simp [mkSchedRow, packIds, newPackRow]
      · intro r hr
        rcases List.mem_append.mp hr with hr1 | hr2
        · rw [packIds_append]
          exact List.mem_append_left _ (hinv.2 r hr1)
        · rw [packIds_append]
          refine List.mem_append_right _ ?_
          obtain ⟨n, _, rfl⟩ := List.mem_map.mp hr2
          simp [mkTargetRow, packIds, newPackRow]
    obtain ⟨st', rows, heq, hq', hl', hh', hlq', hpacks', hinv', hframe',
        hfreshIds', hfa'⟩ := ih _ hinv1
      hndc.2
      (by
        intro sp hsp p hp
        rcases List.mem_append.mp hp with hp1 | hp2
        · exact hfresh sp (List.mem_cons_of_mem _ hsp) p hp1
        · have : p = newPackRow st.packs s := List.mem_singleton.mp hp2
          subst this
          show s.name ≠ sp.name
          intro hcontr
          exact hndc.1 (by
            rw [hcontr]
            exact List.mem_map_of_mem PackSpec.name hsp))
      (fun sp hsp => hq sp (List.mem_cons_of_mem _ hsp))
      (fun sp hsp => hl sp (List.mem_cons_of_mem _ hsp))
    have hpidOld : nextPackId st.packs ∉ packIds st.packs :=
      nextPackId_not_mem st.packs
    refine ⟨st', newPackRow st.packs s :: rows, ?_, hq', hl', hh', hlq',
      ?_, hinv', ?_, ?_, ?_⟩
    · rw [ApplyPackSpecs_cons_ok st _ s rest happly]
      exact heq
    · rw [hpacks']
      simp
    · intro i hi
      have hi1 : i ∈ packIds { st with
          packs := st.packs ++ [newPackRow st.packs s],
          scheduled_queries := st.scheduled_queries ++
            s.queries.map (mkSchedRow (nextPackId st.packs)),
          pack_targets := st.pack_targets ++
            s.targets.labels.map (fun n =>
              mkTargetRow (nextPackId st.packs) (labelIdOf st.labels n)) }.packs := by
        simp only [packIds_append]
        exact List.mem_append_left _ hi
      have hne : i ≠ nextPackId st.packs := by
        intro hcontr
        exact hpidOld (hcontr ▸ hi)
      obtain ⟨hs1, hp1⟩ := hframe' i hi1
      constructor
      · rw [hs1]
        unfold sqProj
        simp only []
        rw [List.filter_append, sq_block_proj_other _ _ _ hne, List.append_nil]
      · rw [hp1]
        unfold ptProj
        simp only []
        rw [List.filter_append, pt_block_proj_other _ _ _ _ hne, List.append_nil]
    · intro r hr
      rcases List.mem_cons.mp hr with rfl | hr2
      · exact hpidOld
      · intro hcontr
        refine hfreshIds' r hr2 ?_
        simp only [packIds_append]
        exact List.mem_append_left _ hcontr
    · refine List.Forall₂.cons ⟨rfl, rfl, rfl, rfl, rfl, ?_, ?_⟩ hfa'
      · have hpid1 : (newPackRow st.packs s).id ∈ packIds { st with
            packs := st.packs ++ [newPackRow st.packs s],
            scheduled_queries := st.scheduled_queries ++
              s.queries.map (mkSchedRow (nextPackId st.packs)),
            pack_targets := st.pack_targets ++
              s.targets.labels.map (fun n =>
                mkTargetRow (nextPackId st.packs) (labelIdOf st.labels n)) }.packs := by
          simp only [packIds_append]
          refine List.mem_append_right _ ?_
          simp [packIds]
        obtain ⟨hs1, _⟩ := hframe' _ hpid1
        rw [hs1]
        unfold sqProj
        simp only []
        rw [List.filter_append]
        have hnil : st.scheduled_queries.filter
            (fun r => r.pack_id == (newPackRow st.packs s).id) = [] := by
          rw [List.filter_eq_nil_iff]
          intro r hr
          simp only [beq_eq_false_iff_ne, ne_eq, Bool.not_eq_true]
          intro hcontr
          have : r.pack_id ∈ packIds st.packs := hinv.1 r hr
          rw [(by simpa using hcontr : r.pack_id = nextPackId st.packs)] at this
          exact hpidOld this
        rw [hnil, List.nil_append]
        exact sq_block_proj_self s.queries (nextPackId st.packs)
      · have hpid1 : (newPackRow st.packs s).id ∈ packIds { st with
            packs := st.packs ++ [newPackRow st.packs s],
            scheduled_queries := st.scheduled_queries ++
              s.queries.map (mkSchedRow (nextPackId st.packs)),
            pack_targets := st.pack_targets ++
              s.targets.labels.map (fun n =>
                mkTargetRow (nextPackId st.packs) (labelIdOf st.labels n)) }.packs := by
          simp only [packIds_append]
          refine List.mem_append_right _ ?_
          simp [packIds]
        obtain ⟨_, hp1⟩ := hframe' _ hpid1
        rw [hp1]
        unfold ptProj
        simp only []
        rw [List.filter_append]
        have hnil : st.pack_targets.filter
            (fun r => r.pack_id == (newPackRow st.packs s).id) = [] := by
          rw [List.filter_eq_nil_iff]
          intro r hr
          simp only [beq_eq_false_iff_ne, ne_eq, Bool.not_eq_true]
          intro hcontr
          have : r.pack_id ∈ packIds st.packs := hinv.2 r hr
          rw [(by simpa using hcontr : r.pack_id = nextPackId st.packs)] at this
          exact hpidOld this
        rw [hnil, List.nil_append]
        exact pt_block_proj_self s.targets.labels st.labels (nextPackId st.packs)

theorem toSpecQuery_mkSchedRow (pid : Nat) (q : PackSpecQuery) :
    toSpecQuery (mkSchedRow pid q) = q := rfl

theorem map_toSpecQuery_block (pid : Nat) (qs : List PackSpecQuery) :
    (qs.map (mkSchedRow pid)).map toSpecQuery = qs := by
  rw [List.map_map]
  have h : ∀ q ∈ qs, (toSpecQuery ∘ mkSchedRow pid) q = q := fun q _ => rfl
  rw [List.map_congr_left h]
  exact List.map_id' qs

theorem pt_filterMap_proj (rows : List PackTargetRow) (pid lidv : Nat)
    (nm : String) :
    rows.filterMap (fun pt =>
      if pt.pack_id = pid ∧ pt.type = TargetType.label ∧ pt.target_id = lidv
      then some nm else none) =
    (rows.filter (fun r => r.pack_id == pid)).filterMap (fun pt =>
      if pt.type = TargetType.label ∧ pt.target_id = lidv
      then some nm else none) := by
  rw [List.filterMap_filter]
  refine List.filterMap_congr ?_
  intro pt _
  by_cases h1 : pt.pack_id = pid
  · by_cases h2 : pt.type = TargetType.label ∧ pt.target_id = lidv
    · rw [if_pos ⟨h1, h2⟩, if_pos (by simpa using h1), if_pos h2]
    · rw [if_neg ?_, if_pos (by simpa using h1), if_neg h2]
      rintro ⟨_, hc2, hc3⟩
      exact h2 ⟨hc2, hc3⟩
  · rw [if_neg ?_, if_neg (by simpa using h1)]
    rintro ⟨hc1, _⟩
    exact h1 hc1

theorem getSpecLabels_proj (st : State) (pid : Nat) :
    getSpecLabels st pid = st.labels.flatMap (fun l =>
      (ptProj st pid).filterMap (fun pt =>
        if pt.type = TargetType.label ∧ pt.target_id = l.id
        then some l.name else none)) := by
  unfold getSpecLabels ptProj
  congr 1
  funext l
  exact pt_filterMap_proj st.pack_targets pid l.id l.name

theorem block_filterMap_names (ns : List String) (labels : List LabelRow)
    (pid lidv : Nat) (nm : String) :
    ((ns.map (fun n => mkTargetRow pid (labelIdOf labels n))).filterMap
      (fun pt => if pt.type = TargetType.label ∧ pt.target_id = lidv
        then some nm else none)) =
    ns.filterMap (fun n =>
      if labelIdOf labels n = lidv then some nm else none) := by
  rw [List.filterMap_map]
  refine List.filterMap_congr ?_
  intro n _
  simp [mkTargetRow]

theorem find?_name_self (labels : List LabelRow) (l : LabelRow)
    (hnd : (labels.map LabelRow.name).Nodup) (hl : l ∈ labels) :
    labels.find? (fun x => x.name == l.name) = some l := by
  induction labels with
  | nil => exact absurd hl (List.not_mem_nil l)
  | cons a rest ih =>
    rw [List.map_cons] at hnd
    obtain ⟨hna, hndr⟩ := List.nodup_cons.mp hnd
    rcases List.mem_cons.mp hl with rfl | hl2
    · have hb : (l.name == l.name) = true := by simp
      rw [List.find?_cons, hb]
    · have hne : (a.name == l.name) = false := by
        rw [beq_eq_false_iff_ne]
        intro hcontr
        exact hna (hcontr ▸ List.mem_map_of_mem LabelRow.name hl2)
      rw [List.find?_cons, hne]
      exact ih hndr hl2

theorem label_id_inj (labels : List LabelRow) (l1 l2 : LabelRow)
    (hnd : (labels.map LabelRow.id).Nodup) (h1 : l1 ∈ labels)
    (h2 : l2 ∈ labels) (hid : l1.id = l2.id) : l1 = l2 := by
  induction labels with
  | nil => exact absurd h1 (List.not_mem_nil l1)
  | cons a rest ih =>
    rw [List.map_cons] at hnd
    obtain ⟨hna, hndr⟩ := List.nodup_cons.mp hnd
    rcases List.mem_cons.mp h1 with rfl | h1r
    · rcases List.mem_cons.mp h2 with rfl | h2r
      · rfl
      · exact absurd (hid ▸ List.mem_map_of_mem LabelRow.id h2r) hna
    · rcases List.mem_cons.mp h2 with rfl | h2r
      · exact absurd (hid ▸ List.mem_map_of_mem LabelRow.id h1r) hna
      · exact ih hndr h1r h2r

theorem labelIdOf_eq_iff (labels : List LabelRow) (n : String)
    (hndn : (labels.map LabelRow.name).Nodup)
    (hndi : (labels.map LabelRow.id).Nodup)
    (hpres : ∃ l0 ∈ labels, l0.name = n) (l : LabelRow) (hl : l ∈ labels) :
    labelIdOf labels n = l.id ↔ n = l.name := by
  obtain ⟨l0, hl0, hl0n⟩ := hpres
  have hfind : labels.find? (fun x => x.name == n) = some l0 := by
    rw [← hl0n]
    exact find?_name_self labels l0 hndn hl0
  have hval : labelIdOf labels n = l0.id := by
    unfold labelIdOf
    rw [hfind]
    rfl
  rw [hval]
  constructor
  · intro hid
    have := label_id_inj labels l0 l hndi hl0 hl hid
    rw [← this, hl0n]
  · intro hn
    have hf2 := find?_name_self labels l hndn hl
    rw [← hn] at hf2
    exact congrArg LabelRow.id (Option.some.inj (hfind.symm.trans hf2))

theorem filterMap_eq_filter_self (ns : List String) (c : String) :
    ns.filterMap (fun n => if n = c then some c else none) =
      ns.filter (fun n => n == c) := by
  induction ns with
  | nil => rfl
  | cons a rest ih =>
    by_cases hc : a = c
    · subst hc
      rw [List.filterMap_cons, List.filter_cons, if_pos rfl,
        if_pos (show (a == a) = true by simp)]
      show a :: rest.filterMap (fun n => if n = a then some a else none) =
        a :: rest.filter (fun n => n == a)
      rw [ih]
    · rw [List.filterMap_cons, List.filter_cons, if_neg hc,
        if_neg (by simpa using hc)]
      show rest.filterMap (fun n => if n = c then some c else none) =
        rest.filter (fun n => n == c)
      exact ih

theorem filter_comm_ne (ns : List String) (x y : String) (hne : y ≠ x) :
    ns.filter (fun n => n == y) =
      (ns.filter (fun n => !(n == x))).filter (fun n => n == y) := by
  induction ns with
  | nil => rfl
  | cons a rest ih =>
    by_cases hay : a = y
    · subst hay
      have hax : (!(a == x)) = true := by
        simp only [Bool.not_eq_true', beq_eq_false_iff_ne, ne_eq]
        exact hne
      rw [List.filter_cons, if_pos (by simp), List.filter_cons, if_pos hax,
        List.filter_cons, if_pos (by simp), ih]
    · by_cases hax : a = x
      · rw [List.filter_cons, if_neg (by simpa using hay), List.filter_cons,
          if_neg (by simp [hax]), ih]
      · rw [List.filter_cons, if_neg (by simpa using hay), List.filter_cons,
          if_pos (by simpa using hax), List.filter_cons,
          if_neg (by simpa using hay), ih]

theorem flatMap_congr_mem {a b : Type} (L : List a) (f g : a → List b)
    (h : ∀ x ∈ L, f x = g x) : L.flatMap f = L.flatMap g := by
  induction L with
  | nil => rfl
  | cons x rest ih =>
    rw [List.flatMap_cons, List.flatMap_cons,
      h x (List.mem_cons_self _ _),
      ih (fun y hy => h y (List.mem_cons_of_mem _ hy))]

theorem flatMap_filter_perm (L : List LabelRow) :
    ∀ (ns : List String), (L.map LabelRow.name).Nodup →
    (∀ n ∈ ns, ∃ l ∈ L, l.name = n) →
    List.Perm (L.flatMap (fun l => ns.filter (fun n => n == l.name))) ns := by
  induction L with
  | nil =>
    intro ns _ hpres
    cases hns : ns with
    | nil => simp
    | cons a rest =>
      obtain ⟨l, hl, _⟩ := hpres a (by rw [hns]; exact List.mem_cons_self _ _)
      exact absurd hl (List.not_mem_nil l)
  | cons l ls ih =>
    intro ns hnd hpres
    rw [List.map_cons] at hnd
    obtain ⟨hna, hndr⟩ := List.nodup_cons.mp hnd
    rw [List.flatMap_cons]
    have htail : ls.flatMap (fun l2 => ns.filter (fun n => n == l2.name)) =
        ls.flatMap (fun l2 =>
          (ns.filter (fun n => !(n == l.name))).filter
            (fun n => n == l2.name)) := by
      refine flatMap_congr_mem ls _ _ ?_
      intro l2 hl2
      refine filter_comm_ne ns l.name l2.name ?_
      intro hcontr
      exact hna (hcontr ▸ List.mem_map_of_mem LabelRow.name hl2)
    rw [htail]
    have hpres2 : ∀ n ∈ ns.filter (fun n => !(n == l.name)),
        ∃ l2 ∈ ls, l2.name = n := by
      intro n hn
      obtain ⟨hn1, hn2⟩ := List.mem_filter.mp hn
      obtain ⟨l2, hl2, hl2n⟩ := hpres n hn1
      rcases List.mem_cons.mp hl2 with rfl | hl2r
      · exfalso
        rw [hl2n] at hn2
        simp at hn2
      · exact ⟨l2, hl2r, hl2n⟩
    have hperm2 := ih (ns.filter (fun n => !(n == l.name))) hndr hpres2
    refine List.Perm.trans (List.Perm.append_left _ hperm2) ?_
    exact List.filter_append_perm _ ns

/-- C2 amended: from a store with no packs and no child rows (labels and
queries tables arbitrary but well formed), applying a well-formed spec list
and reading it back returns, pack for pack in order, the same name,
description, platform and the scheduled query list exactly in submitted
order; the target label list is returned as a permutation of the submitted
one (the read-back join scans the labels table first and has no ORDER BY,
so the submitted target order is not preserved). -/
theorem applyPackSpecs_roundTrip (st : State) (specs : List PackSpec)
    (hpk : st.packs = []) (hsq : st.scheduled_queries = [])
    (hpt : st.pack_targets = [])
    (hlnd : (st.labels.map LabelRow.name).Nodup)
    (hlid : (st.labels.map LabelRow.id).Nodup)
    (hnd : (specs.map PackSpec.name).Nodup)
    (hq : ∀ sp ∈ specs, ∀ q ∈ sp.queries, q.query_name ∈ st.queries)
    (hl : ∀ sp ∈ specs, ∀ n ∈ sp.targets.labels,
      ∃ l ∈ st.labels, l.name = n) :
    ∃ st', ApplyPackSpecs st specs = Except.ok st' ∧
      List.Forall₂ (fun out inp =>
        out.name = inp.name ∧ out.description = inp.description ∧
        out.platform = inp.platform ∧ out.queries = inp.queries ∧
        List.Perm out.targets.labels inp.targets.labels)
        (GetPackSpecs st') specs := by
  have hinv : Inv st := by
    constructor
    · intro r hr
      rw [hsq] at hr
      exact absurd hr (List.not_mem_nil r)
    · intro r hr
      rw [hpt] at hr
      exact absurd hr (List.not_mem_nil r)
  have hfreshAll : ∀ sp ∈ specs, ∀ p ∈ st.packs, p.name ≠ sp.name := by
    intro sp _ p hp
    rw [hpk] at hp
    exact absurd hp (List.not_mem_nil p)
  have hl' : ∀ sp ∈ specs, ∀ n ∈ sp.targets.labels,
      (findLabelId st.labels n).isSome = true := by
    intro sp hsp n hn
    obtain ⟨l, hlm, hln⟩ := hl sp hsp n hn
    have hfind : (st.labels.find? (fun x => x.name == n)).isSome = true := by
      rw [List.find?_isSome]
      exact ⟨l, hlm, by simp [hln]⟩
    obtain ⟨x, hx⟩ := Option.isSome_iff_exists.mp hfind
    unfold findLabelId
    rw [hx]
    rfl
  obtain ⟨st', rows, heq, hq', hlab', hh', hlq', hpacks', hinv', hframe',
      hids', hfa'⟩ := applyAll_fresh specs st hinv hnd hfreshAll hq hl'
  refine ⟨st', heq, ?_⟩
  have hrows : st'.packs = rows := by
    rw [hpacks', hpk]
    rfl
  unfold GetPackSpecs
  rw [hrows]
  have conv : ∀ (sps : List PackSpec) (rws : List PackRow),
      (∀ sp ∈ sps, ∀ n ∈ sp.targets.labels, ∃ l ∈ st.labels, l.name = n) →
      List.Forall₂ (fun sp r =>
        r.name = sp.name ∧ r.description = sp.description ∧
        r.platform = sp.platform ∧ r.deleted = false ∧ r.disabled = false ∧
        sqProj st' r.id = sp.queries.map (mkSchedRow r.id) ∧
        ptProj st' r.id = sp.targets.labels.map
          (fun n => mkTargetRow r.id (labelIdOf st.labels n))) sps rws →
      List.Forall₂ (fun out inp =>
        out.name = inp.name ∧ out.description = inp.description ∧
        out.platform = inp.platform ∧ out.queries = inp.queries ∧
        List.Perm out.targets.labels inp.targets.labels)
        (rws.map (fun p =>
          ({ name := p.name, description := p.description,
             platform := p.platform,
             queries := (st'.scheduled_queries.filter
               (fun r => r.pack_id == p.id)).map toSpecQuery,
             targets := { labels := getSpecLabels st' p.id } } : PackSpec)))
        sps := by
    intro sps
    induction sps with
    | nil =>
      intro rws _ hf
      cases hf
      exact List.Forall₂.nil
    | cons sp sps2 ihs =>
      intro rws hpres hf
      cases hf with
      | @cons _ r _ rws2 hrel hrest =>
        rw [List.map_cons]
        refine List.Forall₂.cons ?_
          (ihs _ (fun s hs => hpres s (List.mem_cons_of_mem _ hs)) hrest)
        obtain ⟨hn, hd, hp, _, _, hsqr, hptr⟩ := hrel
        refine ⟨hn, hd, hp, ?_, ?_⟩
        · show ((sqProj st' r.id).map toSpecQuery) = sp.queries
          rw [hsqr, map_toSpecQuery_block]
        · show List.Perm (getSpecLabels st' r.id) sp.targets.labels
          rw [getSpecLabels_proj, hlab', hptr]
          have hstep : ∀ l ∈ st.labels,
              ((sp.targets.labels.map (fun n =>
                mkTargetRow r.id (labelIdOf st.labels n))).filterMap
                (fun pt => if pt.type = TargetType.label ∧
                  pt.target_id = l.id then some l.name else none)) =
              sp.targets.labels.filter (fun n => n == l.name) := by
            intro l hlm
            rw [block_filterMap_names]
            have hcongr : ∀ n ∈ sp.targets.labels,
                (if labelIdOf st.labels n = l.id
                 then some l.name else none) =
                (if n = l.name then some l.name else none) := by
              intro n hnmem
              have hiff := labelIdOf_eq_iff st.labels n hlnd hlid
                (hpres sp (List.mem_cons_self _ _) n hnmem) l hlm
              by_cases hcase : labelIdOf st.labels n = l.id
              · rw [if_pos hcase, if_pos (hiff.mp hcase)]
              · rw [if_neg hcase, if_neg (fun hc => hcase (hiff.mpr hc))]
            rw [List.filterMap_congr hcongr, filterMap_eq_filter_self]
          rw [flatMap_congr_mem st.labels _ _ hstep]
          exact flatMap_filter_perm st.labels sp.targets.labels hlnd
            (hpres sp (List.mem_cons_self _ _))
  exact conv specs rows hl hfa'

/-- C2 witness: the round-trip theorem applied to the concrete store c2st
and the single-pack spec list [c2spec]. -/
theorem applyPackSpecs_roundTrip_witness :
    ∃ st', ApplyPackSpecs c2st [c2spec] = Except.ok st' ∧
      List.Forall₂ (fun out inp =>
        out.name = inp.name ∧ out.description = inp.description ∧
        out.platform = inp.platform ∧ out.queries = inp.queries ∧
        List.Perm out.targets.labels inp.targets.labels)
        (GetPackSpecs st') [c2spec] :=
  applyPackSpecs_roundTrip c2st [c2spec] rfl rfl rfl (by decide) (by decide)
    (by decide) (by decide)
    (by
      intro sp hsp n hn
      fin_cases hsp
      fin_cases hn
      · exact ⟨{ id := 2, name := "a", deleted := false }, by decide, rfl⟩
      · exact ⟨{ id := 1, name := "b", deleted := false }, by decide, rfl⟩)

/-- C2 counterexample: applying c2spec (targets submitted as a, b) and
reading back returns the target labels as b, a — the label table scan
order — so the submitted target order is not preserved exactly and the
read-back list differs from the input list. -/
theorem applyPackSpecs_roundTrip_counterexample :
    (applyPackSpecsRun c2st [c2spec]).2 = none ∧
    (GetPackSpecs (applyPackSpecsRun c2st [c2spec]).1).map
      (fun s => s.targets.labels) = [["b", "a"]] ∧
    [c2spec].map (fun s => s.targets.labels) = [["a", "b"]] ∧
    (GetPackSpecs (applyPackSpecsRun c2st [c2spec]).1).map
        (fun s => s.targets.labels) ≠
      [c2spec].map (fun s => s.targets.labels) := by
  refine ⟨by decide, by decide, by decide, by decide⟩

theorem forall₂_append_split {a b : Type} (R : a → b → Prop)
    (l1 l2 : List a) :
    ∀ (u : List b), List.Forall₂ R (l1 ++ l2) u →
    ∃ u1 u2, u = u1 ++ u2 ∧ List.Forall₂ R l1 u1 ∧ List.Forall₂ R l2 u2 := by
  induction l1 with
  | nil =>
    intro u h
    exact ⟨[], u, rfl, List.Forall₂.nil, h⟩
  | cons x rest ih =>
    intro u h
    rw [List.cons_append] at h
    cases h with
    | @cons _ y _ u2 hxy hrest =>
      obtain ⟨w1, w2, rfl, hf1, hf2⟩ := ih u2 hrest
      exact ⟨y :: w1, w2, rfl, List.Forall₂.cons hxy hf1, hf2⟩

theorem forall₂_mem_right {a b : Type} (R : a → b → Prop)
    (l : List a) : ∀ (u : List b), List.Forall₂ R l u →
    ∀ y ∈ u, ∃ x ∈ l, R x y := by
  induction l with
  | nil =>
    intro u h y hy
    cases h
    exact absurd hy (List.not_mem_nil y)
  | cons x rest ih =>
    intro u h y hy
    cases h with
    | @cons _ z _ u2 hxz hrest =>
      rcases List.mem_cons.mp hy with rfl | hy2
      · exact ⟨x, List.mem_cons_self _ _, hxz⟩
      · obtain ⟨x2, hx2, hr⟩ := ih u2 hrest y hy2
        exact ⟨x2, List.mem_cons_of_mem _ hx2, hr⟩

theorem packRow_ext (p q : PackRow) (h1 : p.id = q.id) (h2 : p.name = q.name)
    (h3 : p.description = q.description) (h4 : p.platform = q.platform)
    (h5 : p.disabled = q.disabled) (h6 : p.deleted = q.deleted) : p = q := by
  cases p
  cases q
  simp_all

theorem upsert_shape (packs : List PackRow) (spec : PackSpec) :
    (upsertPacks packs spec = packs.map (updRow spec) ∧
      ∃ p ∈ packs, p.name = spec.name) ∨
    (upsertPacks packs spec = packs ++ [newPackRow packs spec] ∧
      ∀ p ∈ packs, p.name ≠ spec.name) := by
  unfold upsertPacks
  by_cases h : packs.any (fun p => p.name == spec.name) = true
  · left
    rw [if_pos h]
    rw [List.any_eq_true] at h
    obtain ⟨p, hp, hname⟩ := h
    exact ⟨rfl, p, hp, by simpa using hname⟩
  · right
    rw [if_neg h]
    refine ⟨rfl, ?_⟩
    intro p hp hcontr
    rw [List.any_eq_true] at h
    exact h ⟨p, hp, by simpa using hcontr⟩

theorem find?_append_first_some {α : Type} (p : α → Bool) (l1 l2 : List α)
    (x : α) (h : l1.find? p = some x) : (l1 ++ l2).find? p = some x := by
  induction l1 with
  | nil => exact Option.noConfusion h
  | cons a rest ih =>
    rw [List.find?_cons] at h
    rw [List.cons_append, List.find?_cons]
    cases hp : p a with
    | false =>
      rw [hp] at h
      exact ih h
    | true =>
      rw [hp] at h
      exact h

theorem findPackId_map_updRow (packs : List PackRow) (spec : PackSpec)
    (n : String) :
    findPackId (packs.map (updRow spec)) n = findPackId packs n := by
  unfold findPackId
  induction packs with
  | nil => rfl
  | cons a rest ih =>
    rw [List.map_cons, List.find?_cons, List.find?_cons]
    cases ha : (a.name == n) with
    | true =>
      have hb : ((updRow spec a).name == n) = true := by
        rw [updRow_name]
        exact ha
      rw [hb]
      show some (updRow spec a).id = some a.id
      rw [updRow_id]
    | false =>
      have hb : ((updRow spec a).name == n) = false := by
        rw [updRow_name]
        exact ha
      rw [hb]
      exact ih

theorem findPackId_upsert_preserve (packs : List PackRow) (spec : PackSpec)
    (n : String) (i : Nat) (h : findPackId packs n = some i) :
    findPackId (upsertPacks packs spec) n = some i := by
  rcases upsert_shape packs spec with ⟨heq, _⟩ | ⟨heq, _⟩
  · rw [heq, findPackId_map_updRow]
    exact h
  · rw [heq]
    unfold findPackId at h ⊢
    cases hf : packs.find? (fun p => p.name == n) with
    | none =>
      rw [hf] at h
      exact Option.noConfusion h
    | some p =>
      rw [hf] at h
      rw [find?_append_first_some _ _ _ p hf]
      exact h

theorem findPackId_upsert_self (st : State) (spec : PackSpec) :
    findPackId (upsertPacks st.packs spec) spec.name = some (pidOf st spec) := by
  obtain ⟨i, hi⟩ := Option.isSome_iff_exists.mp
    (upsertPacks_find_isSome st.packs spec)
  rw [hi]
  unfold pidOf
  rw [hi]
  rfl

theorem apply_tables (x : State) (s : PackSpec) (y : State)
    (h : applyPackSpec x s = Except.ok y) :
    y.queries = x.queries ∧ y.labels = x.labels ∧ y.hosts = x.hosts ∧
    y.lqes = x.lqes ∧ y.packs = upsertPacks x.packs s := by
  obtain ⟨_, rfl⟩ := (applyPackSpec_ok_iff x s y).mp h
  exact ⟨rfl, rfl, rfl, rfl, rfl⟩

theorem run_tables (specs : List PackSpec) (x y : State)
    (h : ApplyPackSpecs x specs = Except.ok y) :
    y.queries = x.queries ∧ y.labels = x.labels ∧ y.hosts = x.hosts ∧
    y.lqes = x.lqes :=
  applyAllOk_tables specs x y (ApplyPackSpecs_ok_inv specs x y h)

theorem run_findPackId_preserve (specs : List PackSpec) :
    ∀ (x y : State) (n : String) (i : Nat),
    ApplyPackSpecs x specs = Except.ok y →
    findPackId x.packs n = some i → findPackId y.packs n = some i := by
  induction specs with
  | nil =>
    intro x y n i h hf
    unfold ApplyPackSpecs at h
    rw [← (Except.ok.injEq _ _).mp h]
    exact hf
  | cons s rest ih =>
    intro x y n i h hf
    cases hs : applyPackSpec x s with
    | error e =>
      rw [ApplyPackSpecs_cons_err x s e rest hs] at h
      exact Except.noConfusion h
    | ok x1 =>
      rw [ApplyPackSpecs_cons_ok x x1 s rest hs] at h
      refine ih x1 y n i h ?_
      obtain ⟨_, _, _, _, hp⟩ := apply_tables x s x1 hs
      rw [hp]
      exact findPackId_upsert_preserve x.packs s n i hf

theorem sq_filter_ne_then_nil (rows : List ScheduledQueryRow) (pid : Nat) :
    (rows.filter (fun r => !(r.pack_id == pid))).filter
      (fun r => r.pack_id == pid) = [] := by
  rw [List.filter_eq_nil_iff]
  intro r hr
  have h2 := (List.mem_filter.mp hr).2
  simp only [Bool.not_eq_true'] at h2
  rw [h2]
  exact Bool.false_ne_true

theorem pt_filter_ne_then_nil (rows : List PackTargetRow) (pid : Nat) :
    (rows.filter (fun r => !(r.pack_id == pid))).filter
      (fun r => r.pack_id == pid) = [] := by
  rw [List.filter_eq_nil_iff]
  intro r hr
  have h2 := (List.mem_filter.mp hr).2
  simp only [Bool.not_eq_true'] at h2
  rw [h2]
  exact Bool.false_ne_true

theorem sq_filter_ne_then_eq (rows : List ScheduledQueryRow) (pid i : Nat)
    (hne : i ≠ pid) :
    (rows.filter (fun r => !(r.pack_id == pid))).filter
      (fun r => r.pack_id == i) = rows.filter (fun r => r.pack_id == i) := by
  rw [List.filter_filter]
  refine List.filter_congr ?_
  intro r _
  cases hi : (r.pack_id == i) with
  | false => rfl
  | true =>
    have : r.pack_id = i := by simpa using hi
    simp [this, hne]

theorem pt_filter_ne_then_eq (rows : List PackTargetRow) (pid i : Nat)
    (hne : i ≠ pid) :
    (rows.filter (fun r => !(r.pack_id == pid))).filter
      (fun r => r.pack_id == i) = rows.filter (fun r => r.pack_id == i) := by
  rw [List.filter_filter]
  refine List.filter_congr ?_
  intro r _
  cases hi : (r.pack_id == i) with
  | false => rfl
  | true =>
    have : r.pack_id = i := by simpa using hi
    simp [this, hne]

theorem apply_proj_self (x : State) (s : PackSpec) (y : State)
    (h : applyPackSpec x s = Except.ok y) :
    sqProj y (pidOf x s) = s.queries.map (mkSchedRow (pidOf x s)) ∧
    ptProj y (pidOf x s) = s.targets.labels.map
      (fun n => mkTargetRow (pidOf x s) (labelIdOf x.labels n)) := by
  obtain ⟨_, rfl⟩ := (applyPackSpec_ok_iff x s y).mp h
  unfold applyStruct sqProj ptProj
  constructor
  · simp only []
    rw [List.filter_append, sq_filter_ne_then_nil, List.nil_append]
    exact sq_block_proj_self s.queries (pidOf x s)
  · simp only []
    rw [List.filter_append, pt_filter_ne_then_nil, List.nil_append]
    exact pt_block_proj_self s.targets.labels x.labels (pidOf x s)

theorem apply_proj_other (x : State) (s : PackSpec) (y : State) (i : Nat)
    (h : applyPackSpec x s = Except.ok y) (hne : i ≠ pidOf x s) :
    sqProj y i = sqProj x i ∧ ptProj y i = ptProj x i := by
  obtain ⟨_, rfl⟩ := (applyPackSpec_ok_iff x s y).mp h
  unfold applyStruct sqProj ptProj
  constructor
  · simp only []
    rw [List.filter_append, sq_filter_ne_then_eq _ _ _ hne,
      sq_block_proj_other _ _ _ hne, List.append_nil]
  · simp only []
    rw [List.filter_append, pt_filter_ne_then_eq _ _ _ hne,
      pt_block_proj_other _ _ _ _ hne, List.append_nil]

theorem run_proj_frame (specs : List PackSpec) :
    ∀ (x y : State) (i : Nat), ApplyPackSpecs x specs = Except.ok y →
    (∀ s ∈ specs, findPackId y.packs s.name ≠ some i) →
    sqProj y i = sqProj x i ∧ ptProj y i = ptProj x i := by
  induction specs with
  | nil =>
    intro x y i h _
    unfold ApplyPackSpecs at h
    rw [← (Except.ok.injEq _ _).mp h]
    exact ⟨rfl, rfl⟩
  | cons s rest ih =>
    intro x y i h hno
    cases hs : applyPackSpec x s with
    | error e =>
      rw [ApplyPackSpecs_cons_err x s e rest hs] at h
      exact Except.noConfusion h
    | ok x1 =>
      rw [ApplyPackSpecs_cons_ok x x1 s rest hs] at h
      have hpid1 : findPackId x1.packs s.name = some (pidOf x s) := by
        obtain ⟨_, _, _, _, hp⟩ := apply_tables x s x1 hs
        rw [hp]
        exact findPackId_upsert_self x s
      have hpidy : findPackId y.packs s.name = some (pidOf x s) :=
        run_findPackId_preserve rest x1 y s.name (pidOf x s) h hpid1
      have hnei : i ≠ pidOf x s := by
        intro hcontr
        exact hno s (List.mem_cons_self _ _) (by rw [hpidy, hcontr])
      obtain ⟨hsq1, hpt1⟩ := apply_proj_other x s x1 i hs hnei
      obtain ⟨hsq2, hpt2⟩ := ih x1 y i h
        (fun s2 hs2 => hno s2 (List.mem_cons_of_mem _ hs2))
      exact ⟨hsq2.trans hsq1, hpt2.trans hpt1⟩

theorem packIds_map_updRow (packs : List PackRow) (spec : PackSpec) :
    packIds (packs.map (updRow spec)) = packIds packs := by
  unfold packIds
  rw [List.map_map]
  refine List.map_congr_left ?_
  intro p _
  exact updRow_id spec p

theorem upsert_ids_nodup (packs : List PackRow) (spec : PackSpec)
    (h : (packIds packs).Nodup) :
    (packIds (upsertPacks packs spec)).Nodup := by
  rcases upsert_shape packs spec with ⟨heq, _⟩ | ⟨heq, _⟩
  · rw [heq, packIds_map_updRow]
    exact h
  · rw [heq, packIds_append]
    rw [List.nodup_append]
    refine ⟨h, List.nodup_singleton _, ?_⟩
    intro i hi hicontra
    have : i = nextPackId packs := by
      simpa [packIds, newPackRow] using hicontra
    rw [this] at hi
    exact nextPackId_not_mem packs hi

theorem run_ids_nodup (specs : List PackSpec) :
    ∀ (x y : State), ApplyPackSpecs x specs = Except.ok y →
    (packIds x.packs).Nodup → (packIds y.packs).Nodup := by
  induction specs with
  | nil =>
    intro x y h hx
    unfold ApplyPackSpecs at h
    rw [← (Except.ok.injEq _ _).mp h]
    exact hx
  | cons s rest ih =>
    intro x y h hx
    cases hs : applyPackSpec x s with
    | error e =>
      rw [ApplyPackSpecs_cons_err x s e rest hs] at h
      exact Except.noConfusion h
    | ok x1 =>
      rw [ApplyPackSpecs_cons_ok x x1 s rest hs] at h
      refine ih x1 y h ?_
      obtain ⟨_, _, _, _, hp⟩ := apply_tables x s x1 hs
      rw [hp]
      exact upsert_ids_nodup x.packs s hx

theorem findPackId_mem (packs : List PackRow) (n : String) (i : Nat)
    (h : findPackId packs n = some i) :
    ∃ p ∈ packs, p.name = n ∧ p.id = i := by
  unfold findPackId at h
  cases hf : packs.find? (fun p => p.name == n) with
  | none =>
    rw [hf] at h
    exact Option.noConfusion h
  | some p =>
    rw [hf] at h
    refine ⟨p, List.mem_of_find?_eq_some hf, ?_, Option.some.inj h⟩
    have := List.find?_some hf
    simpa using this

theorem pack_id_inj (packs : List PackRow) (p1 p2 : PackRow)
    (hnd : (packIds packs).Nodup) (h1 : p1 ∈ packs) (h2 : p2 ∈ packs)
    (hid : p1.id = p2.id) : p1 = p2 := by
  unfold packIds at hnd
  induction packs with
  | nil => exact absurd h1 (List.not_mem_nil p1)
  | cons a rest ih =>
    rw [List.map_cons] at hnd
    obtain ⟨hna, hndr⟩ := List.nodup_cons.mp hnd
    rcases List.mem_cons.mp h1 with rfl | h1r
    · rcases List.mem_cons.mp h2 with rfl | h2r
      · rfl
      · exact absurd (hid ▸ List.mem_map_of_mem (fun p => p.id) h2r) hna
    · rcases List.mem_cons.mp h2 with rfl | h2r
      · exact absurd (hid ▸ List.mem_map_of_mem (fun p => p.id) h1r) hna
      · exact ih hndr h1r h2r

theorem findPackId_name_inj (packs : List PackRow) (n1 n2 : String) (i : Nat)
    (hnd : (packIds packs).Nodup) (h1 : findPackId packs n1 = some i)
    (h2 : findPackId packs n2 = some i) : n1 = n2 := by
  obtain ⟨p1, hp1, hn1, hi1⟩ := findPackId_mem packs n1 i h1
  obtain ⟨p2, hp2, hn2, hi2⟩ := findPackId_mem packs n2 i h2
  have := pack_id_inj packs p1 p2 hnd hp1 hp2 (hi1.trans hi2.symm)
  rw [← hn1, ← hn2, this]

theorem apply_named_fields (x : State) (s : PackSpec) (y : State)
    (h : applyPackSpec x s = Except.ok y) :
    ∀ p ∈ y.packs, p.name = s.name →
      p.description = s.description ∧ p.platform = s.platform ∧
      p.deleted = false := by
  obtain ⟨_, _, _, _, hp⟩ := apply_tables x s y h
  intro p hpm hpn
  rw [hp] at hpm
  rcases upsert_shape x.packs s with ⟨heq, _⟩ | ⟨heq, hnone⟩
  · rw [heq] at hpm
    obtain ⟨q, _, rfl⟩ := List.mem_map.mp hpm
    have hqn : q.name = s.name := by
      rw [← updRow_name s q]
      exact hpn
    rw [updRow_match s q hqn]
    exact ⟨rfl, rfl, rfl⟩
  · rw [heq] at hpm
    rcases List.mem_append.mp hpm with hin | hnew
    · exact absurd hpn (hnone p hin)
    · rw [List.mem_singleton.mp hnew]
      exact ⟨rfl, rfl, rfl⟩

theorem run_packs_pres (specs : List PackSpec) :
    ∀ (x y : State), ApplyPackSpecs x specs = Except.ok y →
    ∃ px ext, y.packs = px ++ ext ∧
      (∀ p ∈ ext, p.name ∈ specs.map PackSpec.name) ∧
      List.Forall₂ (fun p p2 => p2.id = p.id ∧ p2.name = p.name ∧
        p2.disabled = p.disabled ∧
        (p.name ∉ specs.map PackSpec.name → p2 = p)) x.packs px := by
  induction specs with
  | nil =>
    intro x y h
    unfold ApplyPackSpecs at h
    refine ⟨y.packs, [], (List.append_nil _).symm,
      fun p hp => absurd hp (List.not_mem_nil p), ?_⟩
    rw [← (Except.ok.injEq _ _).mp h]
    refine List.forall₂_same.mpr ?_
    intro p _
    exact ⟨rfl, rfl, rfl, fun _ => rfl⟩
  | cons s rest ih =>
    intro x y h
    cases hs : applyPackSpec x s with
    | error e =>
      rw [ApplyPackSpecs_cons_err x s e rest hs] at h
      exact Except.noConfusion h
    | ok x1 =>
      rw [ApplyPackSpecs_cons_ok x x1 s rest hs] at h
      obtain ⟨px1, ext1, hy, hext1, hfa1⟩ := ih x1 y h
      obtain ⟨_, _, _, _, hp1⟩ := apply_tables x s x1 hs
      rcases upsert_shape x.packs s with ⟨heq, _⟩ | ⟨heq, _⟩
      · have hx1packs : x1.packs = x.packs.map (updRow s) := hp1.trans heq
        rw [hx1packs] at hfa1
        rw [List.forall₂_map_left_iff] at hfa1
        refine ⟨px1, ext1, hy, ?_, ?_⟩
        · intro p hp
          rw [List.map_cons]
          exact List.mem_cons_of_mem _ (hext1 p hp)
        · refine List.Forall₂.imp ?_ hfa1
          intro p p2 hrel
          obtain ⟨hid, hname, hdis, hrest⟩ := hrel
          rw [updRow_id] at hid
          rw [updRow_name] at hname
          rw [updRow_disabled] at hdis
          refine ⟨hid, hname, hdis, ?_⟩
          intro hnot
          rw [List.map_cons, List.mem_cons] at hnot
          push_neg at hnot
          have hne : p.name ≠ s.name := hnot.1
          have hnot2 : (updRow s p).name ∉ List.map PackSpec.name rest := by
            rw [updRow_name]
            exact hnot.2
          rw [hrest hnot2, updRow_nomatch s p hne]
      · have hx1packs : x1.packs = x.packs ++ [newPackRow x.packs s] :=
          hp1.trans heq
        rw [hx1packs] at hfa1
        obtain ⟨pxA, pxB, hpx1, hfA, hfB⟩ :=
          forall₂_append_split _ _ _ px1 hfa1
        refine ⟨pxA, pxB ++ ext1, ?_, ?_, ?_⟩
        · rw [hy, hpx1, List.append_assoc]
        · intro p hp
          rcases List.mem_append.mp hp with hpB | hpE
          · obtain ⟨q, hq, hrel⟩ :=
              forall₂_mem_right _ _ _ hfB p hpB
            have hqn : q = newPackRow x.packs s := List.mem_singleton.mp hq
            rw [List.map_cons, List.mem_cons]
            left
            rw [hrel.2.1, hqn]
            rfl
          · rw [List.map_cons]
            exact List.mem_cons_of_mem _ (hext1 p hpE)
        · refine List.Forall₂.imp ?_ hfA
          intro p p2 hrel
          obtain ⟨hid, hname, hdis, hrest⟩ := hrel
          refine ⟨hid, hname, hdis, ?_⟩
          intro hnot
          rw [List.map_cons, List.mem_cons] at hnot
          push_neg at hnot
          exact hrest hnot.2

theorem run_named_fields (specs : List PackSpec) (x y : State) (s : PackSpec)
    (h : ApplyPackSpecs x specs = Except.ok y)
    (hnot : s.name ∉ specs.map PackSpec.name)
    (hbase : ∀ p ∈ x.packs, p.name = s.name →
      p.description = s.description ∧ p.platform = s.platform ∧
      p.deleted = false) :
    ∀ p ∈ y.packs, p.name = s.name →
      p.description = s.description ∧ p.platform = s.platform ∧
      p.deleted = false := by
  obtain ⟨px, ext, hy, hext, hfa⟩ := run_packs_pres specs x y h
  intro p hp hpn
  rw [hy] at hp
  rcases List.mem_append.mp hp with hpx | hpe
  · obtain ⟨q, hq, hrel⟩ := forall₂_mem_right _ _ _ hfa p hpx
    obtain ⟨_, hname, _, hfix⟩ := hrel
    have hqn : q.name = s.name := by
      rw [← hname]
      exact hpn
    have hqnot : q.name ∉ specs.map PackSpec.name := by
      rw [hqn]
      exact hnot
    rw [hfix hqnot]
    exact hbase q hq hqn
  · exact absurd (hpn ▸ hext p hpe) hnot

theorem agree_findPackId (S : List String) (v b : List PackRow)
    (h : agreeP S v b) : ∀ n, findPackId v n = findPackId b n := by
  unfold agreeP at h
  induction h with
  | nil => intro n; rfl
  | @cons pv pb lv lb hrel hrest ihh =>
    intro n
    unfold findPackId at ihh ⊢
    rw [List.find?_cons, List.find?_cons]
    obtain ⟨hid, hname, _, _⟩ := hrel
    rw [hname]
    cases hb : (pb.name == n) with
    | true =>
      show some pv.id = some pb.id
      rw [hid]
    | false => exact ihh n

theorem agree_nil_eq (v b : List PackRow) (h : agreeP [] v b) : v = b := by
  unfold agreeP at h
  induction h with
  | nil => rfl
  | @cons pv pb lv lb hrel hrest ihh =>
    rw [hrel.2.2.2 (List.not_mem_nil _), ihh]

theorem forall₂_self_map {a b : Type} (R : a → b → Prop) (f : a → b)
    (l : List a) (h : ∀ x ∈ l, R x (f x)) : List.Forall₂ R l (l.map f) := by
  induction l with
  | nil => exact List.Forall₂.nil
  | cons x rest ih =>
    rw [List.map_cons]
    exact List.Forall₂.cons (h x (List.mem_cons_self _ _))
      (ih (fun y hy => h y (List.mem_cons_of_mem _ hy)))

theorem findLabelId_isSome_eq (L : List LabelRow) (n : String)
    (h : (findLabelId L n).isSome = true) :
    findLabelId L n = some (labelIdOf L n) := by
  obtain ⟨i, hi⟩ := Option.isSome_iff_exists.mp h
  rw [hi]
  unfold labelIdOf
  unfold findLabelId at hi
  rw [hi]
  rfl

theorem explicitHosts_nil_of_all_label (st : State) (pid : Nat)
    (h : ∀ pt ∈ st.pack_targets, pt.pack_id = pid →
      pt.type = TargetType.label) :
    ListExplicitHostsInPack st pid = [] := by
  unfold ListExplicitHostsInPack
  have hall : st.hosts.flatMap (fun h2 =>
      st.pack_targets.filterMap (fun pt =>
        if pt.target_id = h2 ∧ pt.type = TargetType.host ∧ pt.pack_id = pid
        then some h2 else none)) = [] := by
    rw [List.flatMap_eq_nil_iff]
    intro h2 _
    rw [List.filterMap_eq_nil_iff]
    intro pt hpt
    rw [if_neg]
    rintro ⟨_, htype, hpid⟩
    rw [h pt hpt hpid] at htype
    exact TargetType.noConfusion htype
  rw [hall]
  rfl

/-- C10: after a successful batch, the target rows of each pack named in
the input (with distinct input names, over a store with unique pack ids)
are exactly one Label-kind row per entry of that spec Targets.Labels, in
order, each resolving the label name through the labels table at apply
time; nothing else remains — in particular no Host-kind rows, so
ListExplicitHostsInPack of that pack is empty afterwards. -/
theorem applyPackSpecs_replaces_targets (st : State) (specs : List PackSpec)
    (st' : State) (spec : PackSpec)
    (hwf : (packIds st.packs).Nodup)
    (hnd : (specs.map PackSpec.name).Nodup)
    (hok : ApplyPackSpecs st specs = Except.ok st')
    (hmem : spec ∈ specs) :
    ∃ pid, findPackId st'.packs spec.name = some pid ∧
      ptProj st' pid = spec.targets.labels.map
        (fun n => mkTargetRow pid (labelIdOf st.labels n)) ∧
      List.Forall₂ (fun n r => r.pack_id = pid ∧ r.type = TargetType.label ∧
        findLabelId st.labels n = some r.target_id)
        spec.targets.labels (ptProj st' pid) ∧
      ListExplicitHostsInPack st' pid = [] := by
  obtain ⟨pre, post, rfl⟩ := List.append_of_mem hmem
  rw [ApplyPackSpecs_append] at hok
  cases hpre : ApplyPackSpecs st pre with
  | error e =>
    rw [hpre] at hok
    exact Except.noConfusion hok
  | ok a1 =>
    rw [hpre] at hok
    simp only [] at hok
    cases happ : applyPackSpec a1 spec with
    | error e =>
      rw [ApplyPackSpecs_cons_err a1 spec e post happ] at hok
      exact Except.noConfusion hok
    | ok a2 =>
      rw [ApplyPackSpecs_cons_ok a1 a2 spec post happ] at hok
      obtain ⟨hq1, hl1, _, _⟩ := run_tables pre st a1 hpre
      obtain ⟨_, _, _, _, hpk2⟩ := apply_tables a1 spec a2 happ
      have hnd1 : (packIds a1.packs).Nodup := run_ids_nodup pre st a1 hpre hwf
      have hnd2 : (packIds a2.packs).Nodup := by
        rw [hpk2]
        exact upsert_ids_nodup a1.packs spec hnd1
      have hndy : (packIds st'.packs).Nodup := run_ids_nodup post a2 st' hok hnd2
      have hpid2 : findPackId a2.packs spec.name = some (pidOf a1 spec) := by
        rw [hpk2]
        exact findPackId_upsert_self a1 spec
      have hpidy : findPackId st'.packs spec.name = some (pidOf a1 spec) :=
        run_findPackId_preserve post a2 st' spec.name (pidOf a1 spec) hok hpid2
      have hspecnot : spec.name ∉ post.map PackSpec.name := by
        rw [List.map_append, List.map_cons] at hnd
        have := (List.nodup_append.mp hnd).2.1
        exact (List.nodup_cons.mp this).1
      have hframe := run_proj_frame post a2 st' (pidOf a1 spec) hok ?hno
      case hno =>
        intro s2 hs2 hcontr
        have := findPackId_name_inj st'.packs s2.name spec.name
          (pidOf a1 spec) hndy hcontr hpidy
        exact hspecnot (this ▸ List.mem_map_of_mem PackSpec.name hs2)
      obtain ⟨_, hpt2⟩ := apply_proj_self a1 spec a2 happ
      have hproj : ptProj st' (pidOf a1 spec) = spec.targets.labels.map
          (fun n => mkTargetRow (pidOf a1 spec) (labelIdOf st.labels n)) := by
        rw [hframe.2, hpt2, hl1]
      obtain ⟨hconds, _⟩ := (applyPackSpec_ok_iff a1 spec a2).mp happ
      refine ⟨pidOf a1 spec, hpidy, hproj, ?_, ?_⟩
      · rw [hproj]
        refine forall₂_self_map _ _ _ ?_
        intro n hn
        refine ⟨rfl, rfl, ?_⟩
        have := hconds.2 n hn
        rw [hl1] at this
        exact findLabelId_isSome_eq st.labels n this
      · refine explicitHosts_nil_of_all_label st' (pidOf a1 spec) ?_
        intro pt hpt hptid
        have hmemproj : pt ∈ ptProj st' (pidOf a1 spec) := by
          unfold ptProj
          rw [List.mem_filter]
          exact ⟨hpt, by simpa using hptid⟩
        rw [hproj] at hmemproj
        obtain ⟨n, _, rfl⟩ := List.mem_map.mp hmemproj
        rfl

/-- C10 witness: re-declaring pack P (which had an explicit host target)
with one label target leaves exactly one Label-kind target row and empties
ListExplicitHostsInPack for it. -/
theorem applyPackSpecs_replaces_targets_witness :
    ∃ pid, findPackId ((applyPackSpecsRun c10st [c10spec]).1).packs
        c10spec.name = some pid ∧
      ptProj (applyPackSpecsRun c10st [c10spec]).1 pid =
        c10spec.targets.labels.map
          (fun n => mkTargetRow pid (labelIdOf c10st.labels n)) ∧
      List.Forall₂ (fun n r => r.pack_id = pid ∧ r.type = TargetType.label ∧
        findLabelId c10st.labels n = some r.target_id)
        c10spec.targets.labels
        (ptProj (applyPackSpecsRun c10st [c10spec]).1 pid) ∧
      ListExplicitHostsInPack (applyPackSpecsRun c10st [c10spec]).1 pid = [] :=
  applyPackSpecs_replaces_targets c10st [c10spec]
    (applyPackSpecsRun c10st [c10spec]).1 c10spec (by decide) (by decide)
    (by rfl) (List.mem_singleton_self _)

theorem forall₂_imp_mem {a b : Type} (R S : a → b → Prop) (l : List a) :
    ∀ (u : List b), (∀ x ∈ l, ∀ y ∈ u, R x y → S x y) →
    List.Forall₂ R l u → List.Forall₂ S l u := by
  induction l with
  | nil =>
    intro u _ hf
    cases hf
    exact List.Forall₂.nil
  | cons x rest ih =>
    intro u h hf
    cases hf with
    | @cons _ y _ u2 hxy hrest =>
      refine List.Forall₂.cons
        (h x (List.mem_cons_self _ _) y (List.mem_cons_self _ _) hxy) ?_
      refine ih u2 ?_ hrest
      intro x2 hx2 y2 hy2 hr
      exact h x2 (List.mem_cons_of_mem _ hx2) y2 (List.mem_cons_of_mem _ hy2) hr

theorem applyPackSpecs_replay (specs : List PackSpec) :
    ∀ (a b v : State), ApplyPackSpecs a specs = Except.ok b →
    AgreeExcept v b (specs.map PackSpec.name) →
    ∃ c, ApplyPackSpecs v specs = Except.ok c ∧ c.packs = b.packs ∧
      c.queries = b.queries ∧ c.labels = b.labels ∧ c.hosts = b.hosts ∧
      c.lqes = b.lqes ∧
      ∀ i, sqProj c i = sqProj b i ∧ ptProj c i = ptProj b i := by
  induction specs with
  | nil =>
    intro a b v hrun hA
    obtain ⟨hAq, hAl, hAh, hAlq, hAp, hAproj⟩ := hA
    unfold ApplyPackSpecs at hrun
    refine ⟨v, rfl, agree_nil_eq v.packs b.packs hAp, hAq, hAl, hAh, hAlq, ?_⟩
    intro i
    refine hAproj i ?_
    rintro ⟨n, hn, _⟩
    exact absurd hn (List.not_mem_nil n)
  | cons s rest ih =>
    intro a b v hrun hA
    rw [List.map_cons] at hA
    obtain ⟨hAq, hAl, hAh, hAlq, hAp, hAproj⟩ := hA
    cases happ : applyPackSpec a s with
    | error e =>
      rw [ApplyPackSpecs_cons_err a s e rest happ] at hrun
      exact Except.noConfusion hrun
    | ok a2 =>
      rw [ApplyPackSpecs_cons_ok a a2 s rest happ] at hrun
      obtain ⟨hbq, hbl, hbh, hblq⟩ := run_tables rest a2 b hrun
      obtain ⟨h2q, h2l, h2h, h2lq, h2p⟩ := apply_tables a s a2 happ
      obtain ⟨hconds, _⟩ := (applyPackSpec_ok_iff a s a2).mp happ
      have hcondsv : applyConds v s := by
        unfold applyConds at hconds ⊢
        constructor
        · intro q hq
          rw [hAq, hbq, h2q]
          exact hconds.1 q hq
        · intro n hn
          rw [hAl, hbl, h2l]
          exact hconds.2 n hn
      have happv : applyPackSpec v s = Except.ok (applyStruct v s) :=
        applyPackSpec_ok_of_conds v s hcondsv
      have hpid2 : findPackId a2.packs s.name = some (pidOf a s) := by
        rw [h2p]
        exact findPackId_upsert_self a s
      have hpidb : findPackId b.packs s.name = some (pidOf a s) :=
        run_findPackId_preserve rest a2 b s.name (pidOf a s) hrun hpid2
      have hpidvpre : findPackId v.packs s.name = some (pidOf a s) := by
        rw [agree_findPackId _ v.packs b.packs hAp s.name]
        exact hpidb
      have hshape : upsertPacks v.packs s = v.packs.map (updRow s) := by
        rcases upsert_shape v.packs s with ⟨heq, _⟩ | ⟨_, hnone⟩
        · exact heq
        · exfalso
          obtain ⟨p, hp, hpn, _⟩ := findPackId_mem v.packs s.name _ hpidvpre
          exact hnone p hp hpn
      have hpidv : pidOf v s = pidOf a s := by
        unfold pidOf
        rw [hshape, findPackId_map_updRow, hpidvpre]
        rfl
      have hfieldsA2 := apply_named_fields a s a2 happ
      have hA1 : AgreeExcept (applyStruct v s) b (rest.map PackSpec.name) := by
        refine ⟨?_, ?_, ?_, ?_, ?_, ?_⟩
        · show (applyStruct v s).queries = b.queries
          rw [(applyStruct_tables v s).1, hAq]
        · show (applyStruct v s).labels = b.labels
          rw [(applyStruct_tables v s).2.1, hAl]
        · show (applyStruct v s).hosts = b.hosts
          rw [(applyStruct_tables v s).2.2.1, hAh]
        · show (applyStruct v s).lqes = b.lqes
          rw [(applyStruct_tables v s).2.2.2, hAlq]
        · show agreeP (rest.map PackSpec.name) (applyStruct v s).packs b.packs
          have hvp : (applyStruct v s).packs = v.packs.map (updRow s) := by
            unfold applyStruct
            exact hshape
          rw [hvp]
          unfold agreeP
          rw [List.forall₂_map_left_iff]
          unfold agreeP at hAp
          refine forall₂_imp_mem _ _ v.packs b.packs ?_ hAp
          intro pv _ pb hpbmem hrel
          obtain ⟨hid, hname, hdis, hfix⟩ := hrel
          refine ⟨by rw [updRow_id]; exact hid,
            by rw [updRow_name]; exact hname,
            by rw [updRow_disabled]; exact hdis, ?_⟩
          intro hnotr
          by_cases hcase : pb.name = s.name
          · have hnotin : s.name ∉ rest.map PackSpec.name := hcase ▸ hnotr
            have hfieldsB := run_named_fields rest a2 b s hrun hnotin hfieldsA2
            obtain ⟨hbd, hbp, hbdel⟩ := hfieldsB pb hpbmem hcase
            have hpvn : pv.name = s.name := by
              rw [hname]
              exact hcase
            rw [updRow_match s pv hpvn]
            refine packRow_ext _ _ hid hname ?_ ?_ hdis ?_
            · exact hbd.symm
            · exact hbp.symm
            · exact hbdel.symm
          · have hnots : pb.name ∉ s.name :: rest.map PackSpec.name := by
              rw [List.mem_cons]
              push_neg
              exact ⟨hcase, hnotr⟩
            have hpveq : pv = pb := hfix hnots
            have hpvn : pv.name ≠ s.name := by
              rw [hname]
              exact hcase
            rw [updRow_nomatch s pv hpvn, hpveq]
        · intro i hni
          by_cases hip : i = pidOf a s
          · subst hip
            obtain ⟨hsqv, hptv⟩ := apply_proj_self v s _ happv
            rw [hpidv] at hsqv hptv
            have hfr := run_proj_frame rest a2 b (pidOf a s) hrun ?hno2
            case hno2 =>
              intro s2 hs2 hcontr
              exact hni ⟨s2.name, List.mem_map_of_mem PackSpec.name hs2, hcontr⟩
            obtain ⟨hsqa, hpta⟩ := apply_proj_self a s a2 happ
            constructor
            · rw [hsqv, hfr.1, hsqa]
            · rw [hptv, hfr.2, hpta]
              have : v.labels = a.labels := by
                rw [hAl, hbl, h2l]
              rw [this]
          · have hnev : i ≠ pidOf v s := by
              rw [hpidv]
              exact hip
            obtain ⟨hsqo, hpto⟩ := apply_proj_other v s _ i happv hnev
            have hvb := hAproj i ?hnifull
            case hnifull =>
              rintro ⟨n, hn, heq⟩
              rcases List.mem_cons.mp hn with rfl | hn2
              · rw [hpidb] at heq
                exact hip (Option.some.inj heq).symm
              · exact hni ⟨n, hn2, heq⟩
            exact ⟨hsqo.trans hvb.1, hpto.trans hvb.2⟩
      obtain ⟨c, hceq, hcp, hcq, hcl, hch, hclq, hcproj⟩ :=
        ih a2 b (applyStruct v s) hrun hA1
      refine ⟨c, ?_, hcp, hcq, hcl, hch, hclq, hcproj⟩
      rw [ApplyPackSpecs_cons_ok v (applyStruct v s) s rest happv]
      exact hceq

theorem getPackSpecs_congr (x y : State) (hp : x.packs = y.packs)
    (hl : x.labels = y.labels)
    (hproj : ∀ i, sqProj x i = sqProj y i ∧ ptProj x i = ptProj y i) :
    GetPackSpecs x = GetPackSpecs y := by
  unfold GetPackSpecs
  rw [hp]
  refine List.map_congr_left ?_
  intro p _
  have hq : x.scheduled_queries.filter (fun r => r.pack_id == p.id) =
      y.scheduled_queries.filter (fun r => r.pack_id == p.id) := (hproj p.id).1
  have ht : getSpecLabels x p.id = getSpecLabels y p.id := by
    rw [getSpecLabels_proj, getSpecLabels_proj, hl, (hproj p.id).2]
  rw [hq, ht]

/-- C6 amended: a batch that applied successfully can be applied again: the
second run succeeds and produces the very same persisted tables — the packs
table is identical, every other table is identical, and the per-pack
scheduled-query and target projections are identical — so GetPackSpecs is
stable across the two runs (the read-back after the second run equals the
input only up to the target-label ordering caveat of the round-trip
property). -/
theorem applyPackSpecs_idempotent (st : State) (specs : List PackSpec)
    (st' : State) (h : ApplyPackSpecs st specs = Except.ok st') :
    ∃ st2, ApplyPackSpecs st' specs = Except.ok st2 ∧
      st2.packs = st'.packs ∧ st2.queries = st'.queries ∧
      st2.labels = st'.labels ∧ st2.hosts = st'.hosts ∧
      st2.lqes = st'.lqes ∧
      (∀ i, sqProj st2 i = sqProj st' i ∧ ptProj st2 i = ptProj st' i) ∧
      GetPackSpecs st2 = GetPackSpecs st' := by
  have hAgree : AgreeExcept st' st' (specs.map PackSpec.name) := by
    refine ⟨rfl, rfl, rfl, rfl, ?_, ?_⟩
    · refine List.forall₂_same.mpr ?_
      intro p _
      exact ⟨rfl, rfl, rfl, fun _ => rfl⟩
    · intro i _
      exact ⟨rfl, rfl⟩
  obtain ⟨c, hceq, hcp, hcq, hcl, hch, hclq, hcproj⟩ :=
    applyPackSpecs_replay specs st st' st' h hAgree
  exact ⟨c, hceq, hcp, hcq, hcl, hch, hclq, hcproj,
    getPackSpecs_congr c st' hcp hcl hcproj⟩

/-- C6 witness: the idempotence theorem applied to the concrete first-run
result over c6st. -/
theorem applyPackSpecs_idempotent_witness :
    ∃ st2, ApplyPackSpecs (applyPackSpecsRun c6st [c6spec]).1 [c6spec] =
        Except.ok st2 ∧
      st2.packs = (applyPackSpecsRun c6st [c6spec]).1.packs ∧
      st2.queries = (applyPackSpecsRun c6st [c6spec]).1.queries ∧
      st2.labels = (applyPackSpecsRun c6st [c6spec]).1.labels ∧
      st2.hosts = (applyPackSpecsRun c6st [c6spec]).1.hosts ∧
      st2.lqes = (applyPackSpecsRun c6st [c6spec]).1.lqes ∧
      (∀ i, sqProj st2 i = sqProj (applyPackSpecsRun c6st [c6spec]).1 i ∧
        ptProj st2 i = ptProj (applyPackSpecsRun c6st [c6spec]).1 i) ∧
      GetPackSpecs st2 = GetPackSpecs (applyPackSpecsRun c6st [c6spec]).1 :=
  applyPackSpecs_idempotent c6st [c6spec]
    (applyPackSpecsRun c6st [c6spec]).1 (by rfl)

/-- C6 counterexample: both runs succeed and the read-back is stable, but
it does not equal the input: the target labels submitted as x, y come back
as y, x after the second application, refuting the equals-the-input clause
of the claim. -/
theorem applyPackSpecs_idempotent_counterexample :
    (applyPackSpecsRun c6st [c6spec]).2 = none ∧
    (applyPackSpecsRun (applyPackSpecsRun c6st [c6spec]).1 [c6spec]).2 =
      none ∧
    GetPackSpecs
        (applyPackSpecsRun (applyPackSpecsRun c6st [c6spec]).1 [c6spec]).1 =
      GetPackSpecs (applyPackSpecsRun c6st [c6spec]).1 ∧
    (GetPackSpecs
        (applyPackSpecsRun (applyPackSpecsRun c6st [c6spec]).1
          [c6spec]).1).map (fun s => s.targets.labels) = [["y", "x"]] ∧
    [c6spec].map (fun s => s.targets.labels) = [["x", "y"]] ∧
    (GetPackSpecs
        (applyPackSpecsRun (applyPackSpecsRun c6st [c6spec]).1
          [c6spec]).1).map (fun s => s.targets.labels) ≠
      [c6spec].map (fun s => s.targets.labels) := by
  refine ⟨by decide, by decide, by decide, by decide, by decide, by decide⟩

end Fleet
